import Mathlib

/-!
Verification of the caching layer of a voice-activity tracking library.

The development shallowly embeds:
* `MemoryCache` (file `MemoryCache.ts`): an in-memory key→value store with
  per-entry TTL expiry, LRU eviction bounded by `maxSize`, and hit/miss
  statistics.  JavaScript `Map`s are modelled as association lists that keep
  insertion order (`mapGet`/`mapSet`/`mapDelete`), timestamps (`Date.now()`)
  are threaded explicitly as integers, and the per-call TTL default
  `ttl || this.config.ttl` keeps JavaScript falsiness: an explicit `0`
  falls back to the store default.
* `CacheManager` (file `CacheManager.ts`): the domain-aware coordinator.
  Its engine is abstracted as a record of possibly-throwing operations
  (`Engine`), so that both the real `MemoryCache` engine and an engine whose
  methods throw can be plugged in; `try`/`catch` blocks in the source become
  `Except` matches.
* the leveling branch of `VoiceManager.processMember` together with
  `User.addXP` (file `Calculator.ts`), which gates leaderboard-cache
  invalidation on level-ups.
-/

/-! ### JavaScript `Map` as an insertion-ordered association list -/

/-- `Map.prototype.get`: value of the (unique) pair with the given key. -/
def mapGet {β : Type _} : List (String × β) → String → Option β
  | [], _ => none
  | p :: l, k => if p.1 = k then some p.2 else mapGet l k

/-- `Map.prototype.has`: raw key membership, no expiry logic. -/
def mapHas {β : Type _} (l : List (String × β)) (k : String) : Bool :=
  (mapGet l k).isSome

/-- `Map.prototype.set`: overwrite in place if the key is present (JavaScript
`Map` keeps the original insertion position), otherwise append. -/
def mapSet {β : Type _} (l : List (String × β)) (k : String) (v : β) :
    List (String × β) :=
  if mapHas l k then
    l.map (fun p => if p.1 = k then (k, v) else p)
  else
    l ++ [(k, v)]

/-- `Map.prototype.delete`: remove the pair with the given key. -/
def mapDelete {β : Type _} : List (String × β) → String → List (String × β)
  | [], _ => []
  | p :: l, k => if p.1 = k then mapDelete l k else p :: mapDelete l k

/-! ### Cache engine state -/

/-- Resolved `CacheConfig` (after the constructor's defaulting). -/
structure CacheConfig where
  ttl : Int
  maxSize : Nat
  enableStats : Bool
deriving Repr, DecidableEq

/-- The `MemoryCache` constructor: `config.ttl || 300000`,
`config.maxSize || 1000`, `config.enableStats !== false`.  The `||` defaults
fire on JavaScript falsy values, hence also on an explicit `0`. -/
def mkCacheConfig (ttl : Option Int) (maxSize : Option Nat)
    (enableStats : Option Bool) : CacheConfig where
  ttl := match ttl with
    | none => 300000
    | some t => if t = 0 then 300000 else t
  maxSize := match maxSize with
    | none => 1000
    | some m => if m = 0 then 1000 else m
  enableStats := enableStats ≠ some false

/-- `CacheStats`; `hitRate` is an exact rational in the model. -/
structure CacheStats where
  hits : Nat
  misses : Nat
  sets : Nat
  deletes : Nat
  size : Nat
  hitRate : ℚ
deriving Repr, DecidableEq

/-- The all-zero statistics record the constructor installs. -/
def initStats : CacheStats :=
  { hits := 0, misses := 0, sets := 0, deletes := 0, size := 0, hitRate := 0 }

/-- A stored `CacheEntry<T>`: the value plus its absolute expiry instant. -/
structure CacheEntry (V : Type _) where
  value : V
  expiresAt : Int
deriving Repr, DecidableEq

/-- The mutable state of a `MemoryCache` instance. -/
structure MemoryCache (V : Type _) where
  cache : List (String × CacheEntry V)
  accessOrder : List (String × Nat)
  config : CacheConfig
  stats : CacheStats
  accessCounter : Nat
deriving Repr, DecidableEq

/-- A freshly constructed `MemoryCache` with the given resolved config. -/
def mcInit (V : Type _) (cfg : CacheConfig) : MemoryCache V :=
  { cache := [], accessOrder := [], config := cfg, stats := initStats,
    accessCounter := 0 }

/-- `updateHitRate`: `hitRate = hits / (hits + misses)`, `0` when no lookups
have happened yet. -/
def updateHitRate (s : CacheStats) : CacheStats :=
  let total := s.hits + s.misses
  { s with hitRate := if 0 < total then (s.hits : ℚ) / (total : ℚ) else 0 }

/-- `MemoryCache.get`, with `Date.now()` passed in as `now`.  Returns the
looked-up value (or `none`) together with the successor state. -/
def MemoryCache.get {V : Type _} (c : MemoryCache V) (now : Int)
    (key : String) : Option V × MemoryCache V :=
  match mapGet c.cache key with
  | none =>
      (none,
        { c with stats :=
            if c.config.enableStats then
              updateHitRate { c.stats with misses := c.stats.misses + 1 }
            else c.stats })
  | some entry =>
      if now > entry.expiresAt then
        let cache' := mapDelete c.cache key
        let order' := mapDelete c.accessOrder key
        (none,
          { c with
              cache := cache'
              accessOrder := order'
              stats :=
                if c.config.enableStats then
                  updateHitRate
                    { c.stats with
                        misses := c.stats.misses + 1
                        size := cache'.length }
                else c.stats })
      else
        (some entry.value,
          { c with
              accessOrder := mapSet c.accessOrder key c.accessCounter
              accessCounter := c.accessCounter + 1
              stats :=
                if c.config.enableStats then
                  updateHitRate { c.stats with hits := c.stats.hits + 1 }
                else c.stats })

/-- The scan inside `evictLRU`: fold over the access-order ledger keeping the
pair with the strictly smallest counter (`oldestAccess` starts at `Infinity`,
modelled by the `none` accumulator). -/
def lruScan (acc : Option (String × Nat)) (l : List (String × Nat)) :
    Option (String × Nat) :=
  l.foldl
    (fun acc p =>
      match acc with
      | none => some p
      | some q => if p.2 < q.2 then some p else some q)
    acc

/-- `evictLRU`.  The source guards the deletion with `if (oldestKey)`, which
is falsy both for `null` (empty ledger) and for the empty-string key. -/
def MemoryCache.evictLRU {V : Type _} (c : MemoryCache V) : MemoryCache V :=
  match lruScan none c.accessOrder with
  | none => c
  | some (oldestKey, _) =>
      if oldestKey = "" then c
      else
        { c with
            cache := mapDelete c.cache oldestKey
            accessOrder := mapDelete c.accessOrder oldestKey }

/-- Effective TTL of a `set` call: `ttl || this.config.ttl`, where an absent
argument and an explicit `0` both fall back to the configured default. -/
def effTtl (cfg : CacheConfig) (ttl : Option Int) : Int :=
  match ttl with
  | none => cfg.ttl
  | some t => if t = 0 then cfg.ttl else t

/-- `MemoryCache.set`.  Evicts via LRU only when the key is new (raw `Map`
membership, expired entries included) and the store is at capacity. -/
def MemoryCache.set {V : Type _} (c : MemoryCache V) (now : Int) (key : String)
    (value : V) (ttl : Option Int) : MemoryCache V :=
  let expiresAt := now + effTtl c.config ttl
  let c1 :=
    if c.config.maxSize ≤ c.cache.length ∧ mapHas c.cache key = false then
      c.evictLRU
    else c
  let cache' := mapSet c1.cache key ⟨value, expiresAt⟩
  { c1 with
      cache := cache'
      accessOrder := mapSet c1.accessOrder key c1.accessCounter
      accessCounter := c1.accessCounter + 1
      stats :=
        if c1.config.enableStats then
          { c1.stats with sets := c1.stats.sets + 1, size := cache'.length }
        else c1.stats }

/-- `MemoryCache.delete`: unconditional removal, counts a delete. -/
def MemoryCache.delete {V : Type _} (c : MemoryCache V) (key : String) :
    MemoryCache V :=
  let cache' := mapDelete c.cache key
  { c with
      cache := cache'
      accessOrder := mapDelete c.accessOrder key
      stats :=
        if c.config.enableStats then
          { c.stats with
              deletes := c.stats.deletes + 1
              size := cache'.length }
        else c.stats }

/-- `MemoryCache.clear`: drop all entries, reset the access counter, zero the
`size` statistic (the cumulative counters survive). -/
def MemoryCache.clear {V : Type _} (c : MemoryCache V) : MemoryCache V :=
  { c with
      cache := []
      accessOrder := []
      accessCounter := 0
      stats :=
        if c.config.enableStats then { c.stats with size := 0 } else c.stats }

/-- `MemoryCache.has`: lazy-expiry existence check; never touches stats. -/
def MemoryCache.has {V : Type _} (c : MemoryCache V) (now : Int)
    (key : String) : Bool × MemoryCache V :=
  match mapGet c.cache key with
  | none => (false, c)
  | some entry =>
      if now > entry.expiresAt then
        (false,
          { c with
              cache := mapDelete c.cache key
              accessOrder := mapDelete c.accessOrder key })
      else (true, c)

/-- `MemoryCache.getStats`: a snapshot copy of the statistics record. -/
def MemoryCache.getStats {V : Type _} (c : MemoryCache V) : CacheStats :=
  c.stats

/-- `MemoryCache.close`: releases all entries (the swept timer is outside the
model); statistics and counter are left as they are. -/
def MemoryCache.close {V : Type _} (c : MemoryCache V) : MemoryCache V :=
  { c with cache := [], accessOrder := [] }

/-- The default resolved configuration (`ttl` 5 min, `maxSize` 1000,
stats on). -/
def cfgDefault : CacheConfig := { ttl := 300000, maxSize := 1000, enableStats := true }

example :
    ((mcInit Nat cfgDefault).set 0 "k" 42 none |>.get 5 "k").1 = some 42 := by
  decide

example :
    ((mcInit Nat cfgDefault).set 0 "k" 42 (some 7) |>.get 8 "k").1 = none := by
  decide

example :
    ((mcInit Nat cfgDefault).set 0 "k" 42 (some 0) |>.get 1 "k").1 = some 42 := by
  decide

/-! ### The engine interface seen by the coordinator

`CacheManager` wraps an arbitrary `CacheAdapter`.  Each adapter operation is
modelled as a state transformer that may throw (`Except`), so both the real
`MemoryCache` and a failing adapter are instances. -/

structure Engine (σ : Type _) (V : Type _) where
  initE : σ → Except String Unit × σ
  getE : σ → Int → String → Except String (Option V) × σ
  setE : σ → Int → String → V → Option Int → Except String Unit × σ
  deleteE : σ → String → Except String Unit × σ
  clearE : σ → Except String Unit × σ
  statsE : σ → Except String CacheStats × σ
  closeE : σ → Except String Unit × σ

/-- The `MemoryCache` engine: pure in-memory manipulation, never throws. -/
def mcEngine (V : Type _) : Engine (MemoryCache V) V where
  initE := fun s => (.ok (), s)
  getE := fun s now k => ((s.get now k).1, (s.get now k).2) |>.map Except.ok id
  setE := fun s now k v ttl => (.ok (), s.set now k v ttl)
  deleteE := fun s k => (.ok (), s.delete k)
  clearE := fun s => (.ok (), s.clear)
  statsE := fun s => (.ok s.getStats, s)
  closeE := fun s => (.ok (), s.close)

/-- An adapter every method of which throws. -/
def throwEngine (V : Type _) : Engine Unit V where
  initE := fun s => (.error "engine failure", s)
  getE := fun s _ _ => (.error "engine failure", s)
  setE := fun s _ _ _ _ => (.error "engine failure", s)
  deleteE := fun s _ => (.error "engine failure", s)
  clearE := fun s => (.error "engine failure", s)
  statsE := fun s => (.error "engine failure", s)
  closeE := fun s => (.error "engine failure", s)

/-! ### Domain values crossing the coordinator -/

/-- A guild snapshot.  `config` and `extraData` are opaque to the coordinator
(type parameters); `users` is the user-keyed map, `lastUpdated` an instant. -/
structure GuildData (C U E : Type _) where
  guildId : String
  config : C
  users : List (String × U)
  lastUpdated : Int
  extraData : E
deriving Repr, DecidableEq

/-- `new Date(d)` on a serialized timestamp: the same instant. -/
def dateClone (t : Int) : Int := t

/-- Rebuilding a keyed collection entry by entry (`users[id] = u` into a fresh
object, or `map.set(id, u)` into a fresh `Map`). -/
def rebuildEntries {β : Type _} (l : List (String × β)) : List (String × β) :=
  l.foldl (fun acc p => mapSet acc p.1 p.2) []

/-- `setGuild` serialization: spread the snapshot, rebuilding `users` as a
plain keyed object (`users[userId] = userData` over the `Map` entries). -/
def serializeGuild {C U E : Type _} (g : GuildData C U E) : GuildData C U E :=
  { g with users := rebuildEntries g.users }

/-! ### Cache keys (`CacheManager.getGuildKey` and friends) -/

def getGuildKey (guildId : String) : String := "guild:" ++ guildId

def getUserKey (guildId userId : String) : String :=
  "user:" ++ guildId ++ ":" ++ userId

def getLeaderboardKey (guildId sortBy : String) (limit offset : Nat) :
    String :=
  "leaderboard:" ++ guildId ++ ":" ++ sortBy ++ ":" ++ toString limit ++
    ":" ++ toString offset

/-! ### `CacheManager` operations

Constructed as `new CacheManager(cache?)`: `enabled = !!cache`.  Methods take
the `enabled` flag, the engine and its state; results are `Except`-valued so
that an uncaught adapter exception is observable as `.error`. -/

/-- `enabled = !!cache` from the `CacheManager` constructor. -/
def cacheManagerEnabled (hasEngine : Bool) : Bool := hasEngine

/-- `CacheManager.init`: forwards to the engine when enabled; unguarded. -/
def CacheManager.init {σ V : Type _} (enabled : Bool) (eng : Engine σ V)
    (s : σ) : Except String Unit × σ :=
  if enabled = false then (.ok (), s) else eng.initE s

/-- `CacheManager.getGuild`: read `guild:{guildId}`, rebuild the user map and
the timestamp; any exception is caught and turned into a miss. -/
def CacheManager.getGuild {σ C U E : Type _} (enabled : Bool)
    (eng : Engine σ (GuildData C U E)) (s : σ) (now : Int) (guildId : String) :
    Except String (Option (GuildData C U E)) × σ :=
  if enabled = false then (.ok none, s)
  else
    match eng.getE s now (getGuildKey guildId) with
    | (.error _, s1) => (.ok none, s1)
    | (.ok none, s1) => (.ok none, s1)
    | (.ok (some d), s1) =>
        (.ok (some
          { d with
              users := rebuildEntries d.users
              lastUpdated := dateClone d.lastUpdated }), s1)

/-- `CacheManager.setGuild`: serialize the user map to a plain keyed object
and store under `guild:{guildId}`; exceptions are caught (no-op). -/
def CacheManager.setGuild {σ C U E : Type _} (enabled : Bool)
    (eng : Engine σ (GuildData C U E)) (s : σ) (now : Int)
    (g : GuildData C U E) (ttl : Option Int) : Except String Unit × σ :=
  if enabled = false then (.ok (), s)
  else
    match eng.setE s now (getGuildKey g.guildId) (serializeGuild g) ttl with
    | (_, s1) => (.ok (), s1)

/-- `CacheManager.invalidateGuild`: delete `guild:{guildId}`, catching. -/
def CacheManager.invalidateGuild {σ V : Type _} (enabled : Bool)
    (eng : Engine σ V) (s : σ) (guildId : String) : Except String Unit × σ :=
  if enabled = false then (.ok (), s)
  else
    match eng.deleteE s (getGuildKey guildId) with
    | (_, s1) => (.ok (), s1)

/-- A cached user record: `lastSeen` is the embedded timestamp the
coordinator rebuilds on read; the remaining fields are opaque (`payload`). -/
structure UserRecord (M : Type _) where
  userId : String
  guildId : String
  lastSeen : Int
  payload : M
deriving Repr, DecidableEq

/-- `CacheManager.getUser`: read `user:{guildId}:{userId}`, rebuild
`lastSeen`; exceptions are caught and become a miss. -/
def CacheManager.getUser {σ M : Type _} (enabled : Bool)
    (eng : Engine σ (UserRecord M)) (s : σ) (now : Int)
    (guildId userId : String) : Except String (Option (UserRecord M)) × σ :=
  if enabled = false then (.ok none, s)
  else
    match eng.getE s now (getUserKey guildId userId) with
    | (.error _, s1) => (.ok none, s1)
    | (.ok none, s1) => (.ok none, s1)
    | (.ok (some d), s1) =>
        (.ok (some { d with lastSeen := dateClone d.lastSeen }), s1)

/-- `CacheManager.setUser`: store under `user:{guildId}:{userId}`, catching. -/
def CacheManager.setUser {σ M : Type _} (enabled : Bool)
    (eng : Engine σ (UserRecord M)) (s : σ) (now : Int) (u : UserRecord M)
    (ttl : Option Int) : Except String Unit × σ :=
  if enabled = false then (.ok (), s)
  else
    match eng.setE s now (getUserKey u.guildId u.userId) u ttl with
    | (_, s1) => (.ok (), s1)

/-- `CacheManager.invalidateUser`: delete `user:{guildId}:{userId}`,
catching. -/
def CacheManager.invalidateUser {σ V : Type _} (enabled : Bool)
    (eng : Engine σ V) (s : σ) (guildId userId : String) :
    Except String Unit × σ :=
  if enabled = false then (.ok (), s)
  else
    match eng.deleteE s (getUserKey guildId userId) with
    | (_, s1) => (.ok (), s1)

/-- `CacheManager.getLeaderboard`: read a ranked page, catching. -/
def CacheManager.getLeaderboard {σ L : Type _} (enabled : Bool)
    (eng : Engine σ (List L)) (s : σ) (now : Int) (guildId sortBy : String)
    (limit offset : Nat) : Except String (Option (List L)) × σ :=
  if enabled = false then (.ok none, s)
  else
    match eng.getE s now (getLeaderboardKey guildId sortBy limit offset) with
    | (.error _, s1) => (.ok none, s1)
    | (.ok r, s1) => (.ok r, s1)

/-- Leaderboard TTL: `ttl || 60000` (JavaScript falsiness again). -/
def lbTtl (ttl : Option Int) : Int :=
  match ttl with
  | none => 60000
  | some t => if t = 0 then 60000 else t

/-- `CacheManager.setLeaderboard`: store a ranked page with the one-minute
default TTL, catching. -/
def CacheManager.setLeaderboard {σ L : Type _} (enabled : Bool)
    (eng : Engine σ (List L)) (s : σ) (now : Int) (guildId sortBy : String)
    (limit offset : Nat) (data : List L) (ttl : Option Int) :
    Except String Unit × σ :=
  if enabled = false then (.ok (), s)
  else
    match eng.setE s now (getLeaderboardKey guildId sortBy limit offset) data
        (some (lbTtl ttl)) with
    | (_, s1) => (.ok (), s1)

/-- The fan-out key set of `invalidateLeaderboards`: the nested loops over
sort fields, limits and offsets, in source order. -/
def leaderboardFanoutKeys (guildId : String) : List String :=
  (["voiceTime", "xp", "level"]).flatMap (fun sortBy =>
    ([10, 25, 50, 100] : List Nat).flatMap (fun limit =>
      ([0] : List Nat).map (fun offset =>
        getLeaderboardKey guildId sortBy limit offset)))

/-- `CacheManager.invalidateLeaderboards`: issue one delete per fan-out key;
each delete has its own `try`/`catch` with the error ignored, so the loop
always runs to completion. -/
def CacheManager.invalidateLeaderboards {σ V : Type _} (enabled : Bool)
    (eng : Engine σ V) (s : σ) (guildId : String) : Except String Unit × σ :=
  if enabled = false then (.ok (), s)
  else
    (.ok (), (leaderboardFanoutKeys guildId).foldl
      (fun st k => (eng.deleteE st k).2) s)

/-- `CacheManager.getStats`: `null` when disabled, otherwise an unguarded
passthrough to the engine (no `try`/`catch` in the source). -/
def CacheManager.getStats {σ V : Type _} (enabled : Bool) (eng : Engine σ V)
    (s : σ) : Except String (Option CacheStats) × σ :=
  if enabled = false then (.ok none, s)
  else
    match eng.statsE s with
    | (.error e, s1) => (.error e, s1)
    | (.ok st, s1) => (.ok (some st), s1)

/-- `CacheManager.clear`: unguarded passthrough. -/
def CacheManager.clear {σ V : Type _} (enabled : Bool) (eng : Engine σ V)
    (s : σ) : Except String Unit × σ :=
  if enabled = false then (.ok (), s) else eng.clearE s

/-- `CacheManager.close`: unguarded passthrough. -/
def CacheManager.close {σ V : Type _} (enabled : Bool) (eng : Engine σ V)
    (s : σ) : Except String Unit × σ :=
  if enabled = false then (.ok (), s) else eng.closeE s

/-! ### The per-tick leveling path (`VoiceManager.processMember`) -/

/-- The XP/level fields of a tracked user (`User` in `Calculator.ts`). -/
structure UserLevelState where
  xp : Int
  level : Int
deriving Repr, DecidableEq

/-- `User.addXP`: add the amount, recompute the level through the configured
strategy (`calcLevel`, abstracting `floor(multiplier * sqrt(xp))`), update the
level only on a strict increase, and report whether a level-up happened. -/
def addXP (calcLevel : Int → Int) (u : UserLevelState) (amount : Int) :
    Bool × UserLevelState :=
  let oldLevel := u.level
  let newXp := u.xp + amount
  let newLevel := calcLevel newXp
  if oldLevel < newLevel then
    (true, { xp := newXp, level := newLevel })
  else
    (false, { xp := newXp, level := oldLevel })

/-- The leveling branch of `VoiceManager.processMember`: when leveling is
enabled the member gains XP via `addXP`, and `invalidateLeaderboards` is
called exactly when a cache is attached and `addXP` reported a level-up.
Returns the updated user and whether the invalidation was issued. -/
def processMemberLeveling (cachePresent enableLeveling : Bool)
    (calcLevel : Int → Int) (u : UserLevelState) (xpToAdd : Int) :
    UserLevelState × Bool :=
  if enableLeveling = false then (u, false)
  else
    let r := addXP calcLevel u xpToAdd
    (r.2, cachePresent && r.1)

/-! ### Association-list lemmas -/

section MapLemmas

variable {β : Type _}

@[simp] lemma mapGet_nil (k : String) :
    mapGet ([] : List (String × β)) k = none := rfl

lemma mapGet_cons (p : String × β) (l : List (String × β)) (k : String) :
    mapGet (p :: l) k = if p.1 = k then some p.2 else mapGet l k := rfl

@[simp] lemma mapHas_nil (k : String) :
    mapHas ([] : List (String × β)) k = false := rfl

lemma mapHas_cons (p : String × β) (l : List (String × β)) (k : String) :
    mapHas (p :: l) k = if p.1 = k then true else mapHas l k := by
  simp only [mapHas, mapGet_cons]
  split <;> simp

lemma mapHas_eq_false_iff {l : List (String × β)} {k : String} :
    mapHas l k = false ↔ mapGet l k = none := by
  cases h : mapGet l k <;> simp [mapHas, h]

lemma mapHas_iff_mem_keys {l : List (String × β)} {k : String} :
    mapHas l k = true ↔ k ∈ l.map Prod.fst := by
  induction l with
  | nil => simp
  | cons p l ih =>
      rw [mapHas_cons]
      by_cases h : p.1 = k
      · simp [h]
      · simpa [h, Ne.symm h] using ih

lemma mapHas_eq_false_of_not_mem {l : List (String × β)} {k : String}
    (h : k ∉ l.map Prod.fst) : mapHas l k = false := by
  cases hh : mapHas l k
  · rfl
  · exact absurd (mapHas_iff_mem_keys.mp hh) h

lemma mapGet_append_left {l₁ l₂ : List (String × β)} {k : String} {v : β}
    (h : mapGet l₁ k = some v) : mapGet (l₁ ++ l₂) k = some v := by
  induction l₁ with
  | nil => simp at h
  | cons p l ih =>
      rw [mapGet_cons] at h
      rw [List.cons_append, mapGet_cons]
      by_cases hp : p.1 = k
      · simpa [hp] using h
      · rw [if_neg hp] at h ⊢
        exact ih h

lemma mapGet_append_right {l₁ l₂ : List (String × β)} {k : String}
    (h : mapGet l₁ k = none) : mapGet (l₁ ++ l₂) k = mapGet l₂ k := by
  induction l₁ with
  | nil => simp
  | cons p l ih =>
      rw [mapGet_cons] at h
      rw [List.cons_append, mapGet_cons]
      by_cases hp : p.1 = k
      · rw [if_pos hp] at h; exact absurd h (by simp)
      · rw [if_neg hp] at h ⊢
        exact ih h

lemma mapSet_of_has_false {l : List (String × β)} {k : String} (v : β)
    (h : mapHas l k = false) : mapSet l k v = l ++ [(k, v)] := by
  simp [mapSet, h]

lemma mapSet_of_has_true {l : List (String × β)} {k : String} (v : β)
    (h : mapHas l k = true) :
    mapSet l k v = l.map (fun p => if p.1 = k then (k, v) else p) := by
  simp [mapSet, h]

@[simp] lemma mapGet_mapSet_self (l : List (String × β)) (k : String) (v : β) :
    mapGet (mapSet l k v) k = some v := by
  cases h : mapHas l k
  · rw [mapSet_of_has_false v h]
    rw [mapGet_append_right (mapHas_eq_false_iff.mp h)]
    simp [mapGet_cons]
  · rw [mapSet_of_has_true v h]
    induction l with
    | nil => simp at h
    | cons p l ih =>
        by_cases hp : p.1 = k
        · simp [hp, mapGet_cons]
        · rw [mapHas_cons] at h
          rw [if_neg hp] at h
          simpa [hp, mapGet_cons] using ih h

lemma mapGet_replace_ne {l : List (String × β)} {k k2 : String} {v : β}
    (h : k2 ≠ k) :
    mapGet (l.map (fun p => if p.1 = k then (k, v) else p)) k2 =
      mapGet l k2 := by
  induction l with
  | nil => rfl
  | cons p l ih =>
      by_cases hp : p.1 = k
      · simp [mapGet_cons, hp, Ne.symm h, ih]
      · simp [mapGet_cons, hp, ih]

lemma mapGet_mapSet_ne (l : List (String × β)) {k k2 : String} (v : β)
    (h : k2 ≠ k) : mapGet (mapSet l k v) k2 = mapGet l k2 := by
  cases hh : mapHas l k
  · rw [mapSet_of_has_false v hh]
    cases hg : mapGet l k2 with
    | none =>
        rw [mapGet_append_right hg, mapGet_cons]
        simp [Ne.symm h, hg]
    | some w => simp [mapGet_append_left hg, hg]
  · rw [mapSet_of_has_true v hh]
    exact mapGet_replace_ne h

@[simp] lemma mapDelete_nil (k : String) :
    mapDelete ([] : List (String × β)) k = [] := rfl

lemma mapDelete_cons (p : String × β) (l : List (String × β)) (k : String) :
    mapDelete (p :: l) k =
      if p.1 = k then mapDelete l k else p :: mapDelete l k := rfl

@[simp] lemma mapGet_mapDelete_self (l : List (String × β)) (k : String) :
    mapGet (mapDelete l k) k = none := by
  induction l with
  | nil => rfl
  | cons p l ih =>
      rw [mapDelete_cons]
      split <;> rename_i hp
      · exact ih
      · rw [mapGet_cons]; simp [hp, ih]

lemma mapGet_mapDelete_ne (l : List (String × β)) {k k2 : String}
    (h : k2 ≠ k) : mapGet (mapDelete l k) k2 = mapGet l k2 := by
  induction l with
  | nil => rfl
  | cons p l ih =>
      rw [mapDelete_cons]
      split <;> rename_i hp
      · rw [mapGet_cons]
        subst hp
        simp [Ne.symm h, ih]
      · rw [mapGet_cons, mapGet_cons]
        split <;> simp [ih]

lemma mapDelete_of_has_false {l : List (String × β)} {k : String}
    (h : mapHas l k = false) : mapDelete l k = l := by
  induction l with
  | nil => rfl
  | cons p l ih =>
      rw [mapHas_cons] at h
      by_cases hp : p.1 = k
      · rw [if_pos hp] at h; exact absurd h (by simp)
      · rw [if_neg hp] at h
        rw [mapDelete_cons, if_neg hp, ih h]

lemma mapDelete_length_le (l : List (String × β)) (k : String) :
    (mapDelete l k).length ≤ l.length := by
  induction l with
  | nil => simp
  | cons p l ih =>
      rw [mapDelete_cons]
      split
      · exact le_trans ih (by simp)
      · simpa using Nat.succ_le_succ ih

lemma mapDelete_length_lt {l : List (String × β)} {k : String}
    (h : mapHas l k = true) : (mapDelete l k).length < l.length := by
  induction l with
  | nil => simp at h
  | cons p l ih =>
      rw [mapHas_cons] at h
      rw [mapDelete_cons]
      by_cases hp : p.1 = k
      · rw [if_pos hp]
        exact lt_of_le_of_lt (mapDelete_length_le l k) (by simp)
      · rw [if_neg hp] at h
        rw [if_neg hp]
        simpa using Nat.succ_lt_succ (ih h)

lemma keys_mapSet_of_has_true {l : List (String × β)} {k : String} (v : β)
    (h : mapHas l k = true) :
    (mapSet l k v).map Prod.fst = l.map Prod.fst := by
  rw [mapSet_of_has_true v h, List.map_map]
  refine List.map_congr_left ?_
  intro p _
  by_cases hp : p.1 = k <;> simp [hp]

end MapLemmas

/-! ### Lemmas about the LRU scan -/

lemma lruScan_nil (acc : Option (String × Nat)) : lruScan acc [] = acc := rfl

lemma lruScan_cons (acc : Option (String × Nat)) (p : String × Nat)
    (l : List (String × Nat)) :
    lruScan acc (p :: l) =
      lruScan
        (match acc with
         | none => some p
         | some q => if p.2 < q.2 then some p else some q) l := rfl

/-- If no element beats the accumulator, the scan keeps it. -/
lemma lruScan_keep {l : List (String × Nat)} {p : String × Nat}
    (h : ∀ q ∈ l, ¬ q.2 < p.2) : lruScan (some p) l = some p := by
  induction l with
  | nil => rfl
  | cons q l ih =>
      rw [lruScan_cons]
      have hq : ¬ q.2 < p.2 := h q (by simp)
      simp only [hq, if_false]
      exact ih (fun r hr => h r (by simp [hr]))

/-- The scan result is the accumulator or a list element. -/
lemma lruScan_mem :
    ∀ (l : List (String × Nat)) (acc : Option (String × Nat))
      (r : String × Nat), lruScan acc l = some r → acc = some r ∨ r ∈ l := by
  intro l
  induction l with
  | nil => intro acc r h; rw [lruScan_nil] at h; exact Or.inl h
  | cons q l ih =>
      intro acc r h
      rw [lruScan_cons] at h
      match acc with
      | none =>
          rcases ih (some q) r h with h1 | h1
          · exact Or.inr (by simp [Option.some_inj.mp h1])
          · exact Or.inr (by simp [h1])
      | some a =>
          by_cases hq : q.2 < a.2
          · simp only [hq, if_true] at h
            rcases ih (some q) r h with h1 | h1
            · exact Or.inr (by simp [Option.some_inj.mp h1])
            · exact Or.inr (by simp [h1])
          · simp only [hq, if_false] at h
            rcases ih (some a) r h with h1 | h1
            · exact Or.inl h1
            · exact Or.inr (by simp [h1])

/-- The scan result has a counter at most that of every list element and of
the accumulator. -/
lemma lruScan_min :
    ∀ (l : List (String × Nat)) (acc : Option (String × Nat))
      (r : String × Nat), lruScan acc l = some r →
      (∀ q ∈ l, r.2 ≤ q.2) ∧ (∀ a, acc = some a → r.2 ≤ a.2) := by
  intro l
  induction l with
  | nil =>
      intro acc r h
      rw [lruScan_nil] at h
      exact ⟨by simp, fun a ha => by rw [h] at ha; simp [Option.some_inj.mp ha]⟩
  | cons q l ih =>
      intro acc r h
      rw [lruScan_cons] at h
      match acc with
      | none =>
          have := ih (some q) r h
          refine ⟨?_, by simp⟩
          intro p hp
          rcases List.mem_cons.mp hp with rfl | hp
          · exact this.2 _ rfl
          · exact this.1 p hp
      | some a =>
          by_cases hq : q.2 < a.2
          · simp only [hq, if_true] at h
            have := ih (some q) r h
            refine ⟨?_, ?_⟩
            · intro p hp
              rcases List.mem_cons.mp hp with rfl | hp
              · exact this.2 _ rfl
              · exact this.1 p hp
            · intro b hb
              obtain rfl := Option.some_inj.mp hb
              exact le_trans (this.2 _ rfl) (le_of_lt hq)
          · simp only [hq, if_false] at h
            have := ih (some a) r h
            refine ⟨?_, ?_⟩
            · intro p hp
              rcases List.mem_cons.mp hp with rfl | hp
              · exact le_trans (this.2 a rfl) (not_lt.mp hq)
              · exact this.1 p hp
            · intro b hb
              exact this.2 b hb

/-! ### The access-order ledger produced by a run of fresh inserts -/

/-- Ledger assigning consecutive counters (starting at `ctr`) to keys. -/
def aoOf (ctr : Nat) : List String → List (String × Nat)
  | [] => []
  | k :: ks => (k, ctr) :: aoOf (ctr + 1) ks

lemma aoOf_keys (ctr : Nat) (ks : List String) :
    (aoOf ctr ks).map Prod.fst = ks := by
  induction ks generalizing ctr with
  | nil => rfl
  | cons k ks ih => simp [aoOf, ih]

lemma aoOf_counter_ge (ks : List String) :
    ∀ (ctr : Nat) (q : String × Nat), q ∈ aoOf ctr ks → ctr ≤ q.2 := by
  induction ks with
  | nil => intro ctr q h; simp [aoOf] at h
  | cons k ks ih =>
      intro ctr q h
      rcases List.mem_cons.mp h with rfl | h
      · exact le_refl _
      · exact le_trans (Nat.le_succ _) (ih (ctr + 1) q h)

/-- Scanning a consecutive-counter ledger finds its head. -/
lemma lruScan_aoOf (ctr : Nat) (k : String) (ks : List String) :
    lruScan none (aoOf ctr (k :: ks)) = some (k, ctr) := by
  show lruScan none ((k, ctr) :: aoOf (ctr + 1) ks) = some (k, ctr)
  rw [lruScan_cons]
  exact lruScan_keep (fun q hq => by
    have := aoOf_counter_ge ks (ctr + 1) q hq
    omega)

lemma mapHas_append {β : Type _} (l₁ l₂ : List (String × β)) (k : String) :
    mapHas (l₁ ++ l₂) k = (mapHas l₁ k || mapHas l₂ k) := by
  cases h : mapGet l₁ k with
  | none =>
      have h2 := @mapGet_append_right _ _ l₂ _ h
      simp [mapHas, h2, h]
  | some v =>
      have h2 := @mapGet_append_left _ _ l₂ _ _ h
      simp [mapHas, h2, h]

/-! ### Unfolding lemmas for `set` and `evictLRU` -/

lemma evictLRU_const {V : Type _} (c : MemoryCache V) :
    c.evictLRU.accessCounter = c.accessCounter ∧
    c.evictLRU.config = c.config ∧ c.evictLRU.stats = c.stats := by
  cases h : lruScan none c.accessOrder with
  | none => simp [MemoryCache.evictLRU, h]
  | some p =>
      obtain ⟨k, a⟩ := p
      by_cases hk : k = "" <;> simp [MemoryCache.evictLRU, h, hk]

lemma set_fields_no_evict {V : Type _} {c : MemoryCache V} {key : String}
    (now : Int) (v : V) (ttl : Option Int)
    (h : ¬ (c.config.maxSize ≤ c.cache.length ∧ mapHas c.cache key = false)) :
    (c.set now key v ttl).cache =
      mapSet c.cache key ⟨v, now + effTtl c.config ttl⟩ ∧
    (c.set now key v ttl).accessOrder =
      mapSet c.accessOrder key c.accessCounter ∧
    (c.set now key v ttl).accessCounter = c.accessCounter + 1 ∧
    (c.set now key v ttl).config = c.config := by
  simp [MemoryCache.set, h]

lemma set_fields_evict {V : Type _} {c : MemoryCache V} {key : String}
    (now : Int) (v : V) (ttl : Option Int)
    (h : c.config.maxSize ≤ c.cache.length ∧ mapHas c.cache key = false) :
    (c.set now key v ttl).cache =
      mapSet c.evictLRU.cache key ⟨v, now + effTtl c.config ttl⟩ ∧
    (c.set now key v ttl).accessOrder =
      mapSet c.evictLRU.accessOrder key c.accessCounter ∧
    (c.set now key v ttl).accessCounter = c.accessCounter + 1 ∧
    (c.set now key v ttl).config = c.config := by
  have hc := evictLRU_const c
  simp [MemoryCache.set, h, hc.1, hc.2.1]

lemma set_stats_hits_misses {V : Type _} (c : MemoryCache V) (now : Int)
    (key : String) (v : V) (ttl : Option Int) :
    (c.set now key v ttl).stats.hits = c.stats.hits ∧
    (c.set now key v ttl).stats.misses = c.stats.misses ∧
    (c.set now key v ttl).stats.hitRate = c.stats.hitRate ∧
    (c.set now key v ttl).config.enableStats = c.config.enableStats := by
  have hc := evictLRU_const c
  by_cases h : c.config.maxSize ≤ c.cache.length ∧ mapHas c.cache key = false
  · by_cases hs : c.config.enableStats <;>
      simp [MemoryCache.set, h, hc.1, hc.2.1, hc.2.2, hs]
  · by_cases hs : c.config.enableStats <;>
      simp [MemoryCache.set, h, hs]

/-- After any `set`, the key maps to the freshly written entry. -/
lemma mapGet_set_self {V : Type _} (c : MemoryCache V) (now : Int)
    (key : String) (v : V) (ttl : Option Int) :
    mapGet (c.set now key v ttl).cache key =
      some ⟨v, now + effTtl c.config ttl⟩ := by
  by_cases h : c.config.maxSize ≤ c.cache.length ∧ mapHas c.cache key = false
  · rw [(set_fields_evict now v ttl h).1, mapGet_mapSet_self]
  · rw [(set_fields_no_evict now v ttl h).1, mapGet_mapSet_self]

/-! ### Runs of fresh inserts (`set` with no intervening reads) -/

/-- A sequence of `set` calls: each operation is (time, key, value), with no
per-call TTL. -/
def setMany {V : Type _} (c : MemoryCache V) (ops : List (Int × String × V)) :
    MemoryCache V :=
  ops.foldl (fun c op => c.set op.1 op.2.1 op.2.2 none) c

def opKeys {V : Type _} (ops : List (Int × String × V)) : List String :=
  ops.map (fun op => op.2.1)

/-- The cache entries such a run writes (default TTL applies). -/
def entriesOf {V : Type _} (cfg : CacheConfig)
    (ops : List (Int × String × V)) : List (String × CacheEntry V) :=
  ops.map (fun op => (op.2.1, ⟨op.2.2, op.1 + cfg.ttl⟩))

lemma setMany_cons {V : Type _} (c : MemoryCache V) (op : Int × String × V)
    (ops : List (Int × String × V)) :
    setMany c (op :: ops) = setMany (c.set op.1 op.2.1 op.2.2 none) ops := rfl

/-- A run of distinct fresh inserts that stays within capacity appends its
entries in order and extends the ledger with consecutive counters. -/
lemma setMany_fresh {V : Type _} (ops : List (Int × String × V)) :
    ∀ (c : MemoryCache V),
    (opKeys ops).Nodup →
    (∀ k ∈ opKeys ops, mapHas c.cache k = false) →
    (∀ k ∈ opKeys ops, mapHas c.accessOrder k = false) →
    c.cache.length + ops.length ≤ c.config.maxSize →
    (setMany c ops).cache = c.cache ++ entriesOf c.config ops ∧
    (setMany c ops).accessOrder =
      c.accessOrder ++ aoOf c.accessCounter (opKeys ops) ∧
    (setMany c ops).accessCounter = c.accessCounter + ops.length ∧
    (setMany c ops).config = c.config := by
  induction ops with
  | nil => intro c _ _ _ _; simp [setMany, entriesOf, opKeys, aoOf]
  | cons op rest ih =>
      intro c hnodup hfreshc hfreshao hlen
      obtain ⟨t, k, v⟩ := op
      have hkeys : opKeys ((t, k, v) :: rest) = k :: opKeys rest := rfl
      rw [hkeys] at hnodup hfreshc hfreshao
      have hkc : mapHas c.cache k = false := hfreshc k (by simp)
      have hkao : mapHas c.accessOrder k = false := hfreshao k (by simp)
      have hcap : ¬ (c.config.maxSize ≤ c.cache.length ∧
          mapHas c.cache k = false) := by
        intro hcontra
        have : c.cache.length + (rest.length + 1) ≤ c.config.maxSize := by
          simpa using hlen
        omega
      have hf := set_fields_no_evict t v none hcap
      have heff : effTtl c.config none = c.config.ttl := rfl
      have hcache1 : (c.set t k v none).cache =
          c.cache ++ [(k, ⟨v, t + c.config.ttl⟩)] := by
        rw [hf.1, mapSet_of_has_false _ hkc, heff]
      have hao1 : (c.set t k v none).accessOrder =
          c.accessOrder ++ [(k, c.accessCounter)] := by
        rw [hf.2.1, mapSet_of_has_false _ hkao]
      have ihc := ih (c.set t k v none) hnodup.of_cons
        (by
          intro k2 hk2
          rw [hcache1, mapHas_append]
          have h1 : mapHas c.cache k2 = false := hfreshc k2 (by simp [hk2])
          have hne : k2 ≠ k := by
            intro heq
            rw [List.nodup_cons] at hnodup
            exact hnodup.1 (heq ▸ hk2)
          have h2 : mapHas [(k, (⟨v, t + c.config.ttl⟩ : CacheEntry V))] k2
              = false := by
            rw [mapHas_cons]
            simp [Ne.symm hne]
          simp [h1, h2])
        (by
          intro k2 hk2
          rw [hao1, mapHas_append]
          have h1 : mapHas c.accessOrder k2 = false := hfreshao k2 (by simp [hk2])
          have hne : k2 ≠ k := by
            intro heq
            rw [List.nodup_cons] at hnodup
            exact hnodup.1 (heq ▸ hk2)
          have h2 : mapHas [(k, c.accessCounter)] k2 = false := by
            rw [mapHas_cons]
            simp [Ne.symm hne]
          simp [h1, h2])
        (by
          rw [hcache1, hf.2.2.2]
          simp only [List.length_append, List.length_cons, List.length_nil]
          have : c.cache.length + (rest.length + 1) ≤ c.config.maxSize := by
            simpa using hlen
          omega)
      rw [setMany_cons]
      refine ⟨?_, ?_, ?_, ?_⟩
      · rw [ihc.1, hcache1, hf.2.2.2]
        simp [entriesOf, List.append_assoc]
      · rw [ihc.2.1, hao1, hf.2.2.1, hkeys, List.append_assoc]
        rfl
      · rw [ihc.2.2.1, hf.2.2.1]
        simp only [List.length_cons]
        omega
      · rw [ihc.2.2.2, hf.2.2.2]

/-! ### Rebuilding keyed collections and folded deletes -/

lemma foldSet_fresh {β : Type _} (l : List (String × β)) :
    ∀ acc : List (String × β),
    (l.map Prod.fst).Nodup →
    (∀ k ∈ l.map Prod.fst, mapHas acc k = false) →
    l.foldl (fun a p => mapSet a p.1 p.2) acc = acc ++ l := by
  induction l with
  | nil => intro acc _ _; simp
  | cons p rest ih =>
      intro acc hnodup hfresh
      have hp : mapHas acc p.1 = false := hfresh p.1 (by simp)
      have hstep : mapSet acc p.1 p.2 = acc ++ [p] := by
        rw [mapSet_of_has_false _ hp]
      rw [List.foldl_cons, hstep]
      have hnodup2 : (rest.map Prod.fst).Nodup := by
        simpa using (List.nodup_cons.mp (by simpa using hnodup)).2
      have hni : p.1 ∉ rest.map Prod.fst :=
        (List.nodup_cons.mp (by simpa using hnodup)).1
      rw [ih (acc ++ [p]) hnodup2
        (by
          intro k hk
          rw [mapHas_append]
          have h1 : mapHas acc k = false := hfresh k (by simp [hk])
          have hne : k ≠ p.1 := fun heq => hni (heq ▸ hk)
          have h2 : mapHas [p] k = false := by
            rw [mapHas_cons]
            simp [Ne.symm hne]
          simp [h1, h2])]
      simp

/-- Rebuilding a `Nodup`-keyed collection reproduces it exactly. -/
lemma rebuildEntries_eq_self {β : Type _} {l : List (String × β)}
    (h : (l.map Prod.fst).Nodup) : rebuildEntries l = l := by
  have := foldSet_fresh l [] h (by simp)
  simpa [rebuildEntries] using this

lemma deleteFold_get {V : Type _} (ks : List String) :
    ∀ (c : MemoryCache V) (k : String),
    mapGet ((ks.foldl (fun st kk => st.delete kk) c).cache) k =
      if k ∈ ks then none else mapGet c.cache k := by
  induction ks with
  | nil => intro c k; simp
  | cons kk rest ih =>
      intro c k
      rw [List.foldl_cons, ih]
      have hdel : (c.delete kk).cache = mapDelete c.cache kk := rfl
      by_cases h1 : k ∈ rest
      · simp [h1]
      · by_cases h2 : k = kk
        · subst h2
          simp [h1, hdel]
        · simp [h1, h2, hdel, mapGet_mapDelete_ne _ h2]

/-! ### Behaviour of a single `get` -/

lemma get_absent {V : Type _} {c : MemoryCache V} {key : String} (now : Int)
    (h : mapGet c.cache key = none) :
    c.get now key = (none,
      { c with stats :=
          if c.config.enableStats then
            updateHitRate { c.stats with misses := c.stats.misses + 1 }
          else c.stats }) := by
  simp [MemoryCache.get, h]

lemma get_expired {V : Type _} {c : MemoryCache V} {key : String}
    {entry : CacheEntry V} (now : Int) (h : mapGet c.cache key = some entry)
    (hexp : now > entry.expiresAt) :
    c.get now key = (none,
      { c with
          cache := mapDelete c.cache key
          accessOrder := mapDelete c.accessOrder key
          stats :=
            if c.config.enableStats then
              updateHitRate
                { c.stats with
                    misses := c.stats.misses + 1
                    size := (mapDelete c.cache key).length }
            else c.stats }) := by
  simp [MemoryCache.get, h, hexp]

lemma get_hit {V : Type _} {c : MemoryCache V} {key : String}
    {entry : CacheEntry V} (now : Int) (h : mapGet c.cache key = some entry)
    (hexp : ¬ now > entry.expiresAt) :
    c.get now key = (some entry.value,
      { c with
          accessOrder := mapSet c.accessOrder key c.accessCounter
          accessCounter := c.accessCounter + 1
          stats :=
            if c.config.enableStats then
              updateHitRate { c.stats with hits := c.stats.hits + 1 }
            else c.stats }) := by
  simp [MemoryCache.get, h, hexp]

/-! ### Small auxiliary lemmas -/

lemma entriesOf_cons {V : Type _} (cfg : CacheConfig) (t : Int) (k : String)
    (v : V) (rest : List (Int × String × V)) :
    entriesOf cfg ((t, k, v) :: rest) =
      (k, ⟨v, t + cfg.ttl⟩) :: entriesOf cfg rest := rfl

lemma entriesOf_keys {V : Type _} (cfg : CacheConfig)
    (ops : List (Int × String × V)) :
    (entriesOf cfg ops).map Prod.fst = opKeys ops := by
  simp [entriesOf, opKeys, List.map_map]

lemma replace_not_mem {β : Type _} {l : List (String × β)} {k : String}
    {v : β} (h : k ∉ l.map Prod.fst) :
    l.map (fun p => if p.1 = k then (k, v) else p) = l := by
  induction l with
  | nil => rfl
  | cons p rest ih =>
      simp only [List.map_cons, List.mem_cons] at h ⊢
      have hp : ¬ p.1 = k := fun heq => h (Or.inl heq.symm)
      rw [if_neg hp, ih (fun hm => h (Or.inr hm))]

lemma evictLRU_eq {V : Type _} {c : MemoryCache V} {k0 : String} {a0 : Nat}
    (h : lruScan none c.accessOrder = some (k0, a0)) (hk : k0 ≠ "") :
    c.evictLRU =
      { c with
          cache := mapDelete c.cache k0
          accessOrder := mapDelete c.accessOrder k0 } := by
  simp [MemoryCache.evictLRU, h, hk]

/-! ### Claims -/

/-- C4: on the per-tick accrual path (`processMember`), the leaderboard-cache
invalidation is issued only in ticks whose XP accrual raises the user's
level; a tick that adds XP without a level increase never triggers it. -/
theorem c4_invalidate_only_on_level_up (cachePresent enableLeveling : Bool)
    (calcLevel : Int → Int) (u : UserLevelState) (xpToAdd : Int)
    (h : (processMemberLeveling cachePresent enableLeveling calcLevel u
      xpToAdd).2 = true) :
    u.level <
      (processMemberLeveling cachePresent enableLeveling calcLevel u
        xpToAdd).1.level := by
  unfold processMemberLeveling addXP at *
  by_cases he : enableLeveling = false
  · rw [if_pos he] at h
    exact absurd h (by simp)
  · rw [if_neg he] at h ⊢
    by_cases hl : u.level < calcLevel (u.xp + xpToAdd)
    · simp [hl]
    · rw [if_neg hl] at h
      exact absurd h (by simp)

theorem c4_invalidate_only_on_level_up_witness :
    (processMemberLeveling true true (fun x => x) ⟨0, 0⟩ 5).2 = true ∧
    ((⟨0, 0⟩ : UserLevelState)).level <
      (processMemberLeveling true true (fun x => x) ⟨0, 0⟩ 5).1.level :=
  ⟨by decide,
    c4_invalidate_only_on_level_up true true (fun x => x) ⟨0, 0⟩ 5 (by decide)⟩

/-- C5: with an enabled engine, `invalidateLeaderboards(g)` deletes exactly
the 12 keys of the Cartesian product of the three sort fields with the four
limits at offset 0, independently of the cache contents, and touches no other
key. -/
theorem c5_fanout_delete (V : Type) (g : String) (mc : MemoryCache V) :
    leaderboardFanoutKeys g =
      [getLeaderboardKey g "voiceTime" 10 0, getLeaderboardKey g "voiceTime" 25 0,
       getLeaderboardKey g "voiceTime" 50 0, getLeaderboardKey g "voiceTime" 100 0,
       getLeaderboardKey g "xp" 10 0, getLeaderboardKey g "xp" 25 0,
       getLeaderboardKey g "xp" 50 0, getLeaderboardKey g "xp" 100 0,
       getLeaderboardKey g "level" 10 0, getLeaderboardKey g "level" 25 0,
       getLeaderboardKey g "level" 50 0, getLeaderboardKey g "level" 100 0] ∧
    (leaderboardFanoutKeys g).length = 12 ∧
    (∀ k ∈ leaderboardFanoutKeys g,
      mapGet (CacheManager.invalidateLeaderboards true (mcEngine V) mc
        g).2.cache k = none) ∧
    (∀ k, k ∉ leaderboardFanoutKeys g →
      mapGet (CacheManager.invalidateLeaderboards true (mcEngine V) mc
        g).2.cache k = mapGet mc.cache k) ∧
    (CacheManager.invalidateLeaderboards true (mcEngine V) mc g).1 =
      .ok () := by
  have hfold : (CacheManager.invalidateLeaderboards true (mcEngine V) mc g).2
      = (leaderboardFanoutKeys g).foldl (fun st kk => st.delete kk) mc := rfl
  refine ⟨rfl, rfl, ?_, ?_, rfl⟩
  · intro k hk
    rw [hfold, deleteFold_get, if_pos hk]
  · intro k hk
    rw [hfold, deleteFold_get, if_neg hk]

theorem c5_fanout_delete_witness :
    mapGet (CacheManager.invalidateLeaderboards true (mcEngine Nat)
      (mcInit Nat cfgDefault) "g").2.cache (getLeaderboardKey "g" "xp" 10 0)
      = none ∧
    mapGet (CacheManager.invalidateLeaderboards true (mcEngine Nat)
      (mcInit Nat cfgDefault) "g").2.cache "other"
      = mapGet (mcInit Nat cfgDefault).cache "other" :=
  ⟨(c5_fanout_delete Nat "g" (mcInit Nat cfgDefault)).2.2.1 _ (by decide),
   (c5_fanout_delete Nat "g" (mcInit Nat cfgDefault)).2.2.2.1 "other"
     (by decide)⟩

/-- C6: a coordinator constructed without an engine is transparently
disabled: every read returns absent, every write and invalidation is a no-op,
and no method throws. -/
theorem c6_disabled_transparency (σ C U E M L V : Type)
    (engG : Engine σ (GuildData C U E)) (engU : Engine σ (UserRecord M))
    (engL : Engine σ (List L)) (engV : Engine σ V) (s : σ) (now : Int)
    (gid uid sortBy : String) (limit offset : Nat) (g : GuildData C U E)
    (u : UserRecord M) (data : List L) (ttl : Option Int) :
    CacheManager.getGuild (cacheManagerEnabled false) engG s now gid =
      (.ok none, s) ∧
    CacheManager.setGuild (cacheManagerEnabled false) engG s now g ttl =
      (.ok (), s) ∧
    CacheManager.invalidateGuild (cacheManagerEnabled false) engV s gid =
      (.ok (), s) ∧
    CacheManager.getUser (cacheManagerEnabled false) engU s now gid uid =
      (.ok none, s) ∧
    CacheManager.setUser (cacheManagerEnabled false) engU s now u ttl =
      (.ok (), s) ∧
    CacheManager.invalidateUser (cacheManagerEnabled false) engV s gid uid =
      (.ok (), s) ∧
    CacheManager.getLeaderboard (cacheManagerEnabled false) engL s now gid
      sortBy limit offset = (.ok none, s) ∧
    CacheManager.setLeaderboard (cacheManagerEnabled false) engL s now gid
      sortBy limit offset data ttl = (.ok (), s) ∧
    CacheManager.invalidateLeaderboards (cacheManagerEnabled false) engV s gid
      = (.ok (), s) ∧
    CacheManager.getStats (cacheManagerEnabled false) engV s = (.ok none, s) ∧
    CacheManager.clear (cacheManagerEnabled false) engV s = (.ok (), s) ∧
    CacheManager.close (cacheManagerEnabled false) engV s = (.ok (), s) ∧
    CacheManager.init (cacheManagerEnabled false) engV s = (.ok (), s) :=
  ⟨rfl, rfl, rfl, rfl, rfl, rfl, rfl, rfl, rfl, rfl, rfl, rfl, rfl⟩

/-- C7: with statistics enabled, a `get` that comes back absent (missing or
expired key) increments `misses` by exactly 1 and leaves `hits` unchanged; a
`set` followed by an unexpired `get` of the same key increments `hits` by
exactly 1; and after every `get` the reported `hitRate` equals
`hits / (hits + misses)`. -/
theorem c7_hit_miss_accounting (V : Type) :
    (∀ (c : MemoryCache V) (now : Int) (k : String),
      c.config.enableStats = true →
      (c.get now k).1 = none →
      (c.get now k).2.stats.misses = c.stats.misses + 1 ∧
      (c.get now k).2.stats.hits = c.stats.hits) ∧
    (∀ (c : MemoryCache V) (s now : Int) (k : String) (v : V)
      (ttl : Option Int),
      c.config.enableStats = true →
      ¬ now > s + effTtl c.config ttl →
      ((c.set s k v ttl).get now k).2.stats.hits = c.stats.hits + 1) ∧
    (∀ (c : MemoryCache V) (now : Int) (k : String),
      c.config.enableStats = true →
      (c.get now k).2.stats.hitRate =
        ((c.get now k).2.stats.hits : ℚ) /
          (((c.get now k).2.stats.hits : ℚ) +
            ((c.get now k).2.stats.misses : ℚ))) := by
  refine ⟨?_, ?_, ?_⟩
  · intro c now k hstats hmiss
    cases hget : mapGet c.cache k with
    | none =>
        rw [get_absent now hget]
        simp [hstats, updateHitRate]
    | some entry =>
        by_cases hexp : now > entry.expiresAt
        · rw [get_expired now hget hexp]
          simp [hstats, updateHitRate]
        · rw [get_hit now hget hexp] at hmiss
          exact absurd hmiss (by simp)
  · intro c s now k v ttl hstats hexp
    have hset := set_stats_hits_misses c s k v ttl
    have hget := mapGet_set_self c s k v ttl
    have hexp2 : ¬ now >
        (⟨v, s + effTtl c.config ttl⟩ : CacheEntry V).expiresAt := hexp
    rw [get_hit now hget hexp2]
    simp only [hset.2.2.2, hstats, if_true]
    simp [updateHitRate, hset.1]
  · intro c now k hstats
    cases hget : mapGet c.cache k with
    | none =>
        rw [get_absent now hget]
        simp only [hstats, if_true]
        simp [updateHitRate]
    | some entry =>
        by_cases hexp : now > entry.expiresAt
        · rw [get_expired now hget hexp]
          simp only [hstats, if_true]
          simp [updateHitRate]
        · rw [get_hit now hget hexp]
          simp only [hstats, if_true]
          simp [updateHitRate]

theorem c7_hit_miss_accounting_witness :
    ((mcInit Nat cfgDefault).get 0 "a").2.stats.misses =
      (mcInit Nat cfgDefault).stats.misses + 1 ∧
    ((mcInit Nat cfgDefault).get 0 "a").2.stats.hits =
      (mcInit Nat cfgDefault).stats.hits ∧
    (((mcInit Nat cfgDefault).set 0 "a" 42 none).get 0 "a").2.stats.hits =
      (mcInit Nat cfgDefault).stats.hits + 1 ∧
    ((mcInit Nat cfgDefault).get 0 "a").2.stats.hitRate =
      (((mcInit Nat cfgDefault).get 0 "a").2.stats.hits : ℚ) /
        ((((mcInit Nat cfgDefault).get 0 "a").2.stats.hits : ℚ) +
          (((mcInit Nat cfgDefault).get 0 "a").2.stats.misses : ℚ)) :=
  ⟨((c7_hit_miss_accounting Nat).1 (mcInit Nat cfgDefault) 0 "a" (by decide)
      (by decide)).1,
   ((c7_hit_miss_accounting Nat).1 (mcInit Nat cfgDefault) 0 "a" (by decide)
      (by decide)).2,
   (c7_hit_miss_accounting Nat).2.1 (mcInit Nat cfgDefault) 0 0 "a" 42 none
     (by decide) (by decide),
   (c7_hit_miss_accounting Nat).2.2 (mcInit Nat cfgDefault) 0 "a" (by decide)⟩

/-- C2 counterexample: with an explicit per-call TTL of `0`, the claim
demands that a `get` at any time strictly after `s + 0` return absent; the
code's `ttl || default` treats `0` as falsy, keeps the default TTL, and the
`get` at time `1` still returns the value. -/
theorem c2_counterexample :
    (((mcInit Nat cfgDefault).set 0 "k" 42 (some 0)).get 1 "k").1 =
      some 42 := by decide

/-- C2 (amended to nonzero TTLs): for every TTL `t ≠ 0`, after
`set(k, v, ttl = t)` at time `s` a `get(k)` at any time strictly after
`s + t` returns absent and removes both the entry and its access-order
record, while a `get(k)` at or before `s + t` returns the stored value. -/
theorem c2_ttl_expiry (V : Type) (c : MemoryCache V) (k : String) (v : V)
    (t s now : Int) (ht : t ≠ 0) :
    (now > s + t →
      (((c.set s k v (some t)).get now k).1 = none ∧
       mapGet (((c.set s k v (some t)).get now k).2).cache k = none ∧
       mapGet (((c.set s k v (some t)).get now k).2).accessOrder k = none)) ∧
    (¬ now > s + t → ((c.set s k v (some t)).get now k).1 = some v) := by
  have heff : effTtl c.config (some t) = t := by simp [effTtl, ht]
  have hget : mapGet (c.set s k v (some t)).cache k = some ⟨v, s + t⟩ := by
    have := mapGet_set_self c s k v (some t)
    rwa [heff] at this
  constructor
  · intro hlate
    have hexp : now > (⟨v, s + t⟩ : CacheEntry V).expiresAt := hlate
    rw [get_expired now hget hexp]
    refine ⟨rfl, ?_, ?_⟩ <;> simp
  · intro hok
    have hexp : ¬ now > (⟨v, s + t⟩ : CacheEntry V).expiresAt := hok
    rw [get_hit now hget hexp]

theorem c2_ttl_expiry_witness :
    ((((mcInit Nat cfgDefault).set 0 "k" 1 (some 7)).get 10 "k").1 = none ∧
     mapGet ((((mcInit Nat cfgDefault).set 0 "k" 1 (some 7)).get 10
       "k").2).cache "k" = none ∧
     mapGet ((((mcInit Nat cfgDefault).set 0 "k" 1 (some 7)).get 10
       "k").2).accessOrder "k" = none) ∧
    (((mcInit Nat cfgDefault).set 0 "k" 1 (some 7)).get 3 "k").1 = some 1 :=
  ⟨(c2_ttl_expiry Nat (mcInit Nat cfgDefault) "k" 1 7 0 10 (by decide)).1
     (by decide),
   (c2_ttl_expiry Nat (mcInit Nat cfgDefault) "k" 1 7 0 3 (by decide)).2
     (by decide)⟩

/-- C9 counterexample: `set(k, v, ttl = 0)` at time `0` is claimed to set the
expiry to `0 + 0`; because `0` is falsy in `ttl || default`, the stored
expiry is the store default `300000` instead. -/
theorem c9_counterexample :
    mapGet ((mcInit Nat cfgDefault).set 0 "k" 42 (some 0)).cache "k" =
      some ⟨42, 300000⟩ ∧
    mapGet ((mcInit Nat cfgDefault).set 0 "k" 42 (some 0)).cache "k" ≠
      some ⟨42, 0 + 0⟩ := by decide

/-- C9 (amended): an explicit per-call TTL `t` overrides the store default
only when `t ≠ 0` (the entry then expires at `s + t`); an explicit `0` falls
back to the store-wide default; every negative `t` expires immediately, so
any later `get` returns absent. -/
theorem c9_ttl_override (V : Type) (c : MemoryCache V) (now : Int)
    (k : String) (v : V) (t : Int) :
    (t ≠ 0 →
      mapGet ((c.set now k v (some t)).cache) k = some ⟨v, now + t⟩) ∧
    (t = 0 →
      mapGet ((c.set now k v (some t)).cache) k =
        some ⟨v, now + c.config.ttl⟩) ∧
    (t < 0 → ∀ now2 : Int, now ≤ now2 →
      ((c.set now k v (some t)).get now2 k).1 = none) := by
  refine ⟨?_, ?_, ?_⟩
  · intro ht
    have heff : effTtl c.config (some t) = t := by simp [effTtl, ht]
    have := mapGet_set_self c now k v (some t)
    rwa [heff] at this
  · intro ht
    have heff : effTtl c.config (some t) = c.config.ttl := by
      simp [effTtl, ht]
    have := mapGet_set_self c now k v (some t)
    rwa [heff] at this
  · intro ht now2 hle
    have ht0 : t ≠ 0 := by omega
    have heff : effTtl c.config (some t) = t := by simp [effTtl, ht0]
    have hget : mapGet (c.set now k v (some t)).cache k =
        some ⟨v, now + t⟩ := by
      have := mapGet_set_self c now k v (some t)
      rwa [heff] at this
    have hexp : now2 > (⟨v, now + t⟩ : CacheEntry V).expiresAt := by
      show now2 > now + t
      omega
    rw [get_expired now2 hget hexp]

theorem c9_ttl_override_witness :
    mapGet ((mcInit Nat cfgDefault).set 5 "k" 1 (some 7)).cache "k" =
      some ⟨1, 5 + 7⟩ ∧
    mapGet ((mcInit Nat cfgDefault).set 5 "k" 1 (some 0)).cache "k" =
      some ⟨1, 5 + (mcInit Nat cfgDefault).config.ttl⟩ ∧
    (((mcInit Nat cfgDefault).set 5 "k" 1 (some (-3))).get 5 "k").1 = none :=
  ⟨(c9_ttl_override Nat (mcInit Nat cfgDefault) 5 "k" 1 7).1 (by decide),
   (c9_ttl_override Nat (mcInit Nat cfgDefault) 5 "k" 1 0).2.1 rfl,
   (c9_ttl_override Nat (mcInit Nat cfgDefault) 5 "k" 1 (-3)).2.2 (by decide)
     5 (by decide)⟩

/-- C10: `has` on an expired entry returns `false`, removes the entry and its
access-order record, and leaves every statistics field untouched; as long as
the `size` statistic was at least the actual entry count beforehand (as on
every reachable stats-enabled state), `getStats().size` afterwards strictly
exceeds the number of entries actually present. -/
theorem c10_has_expired_stale_size (V : Type) (c : MemoryCache V) (now : Int)
    (k : String) (entry : CacheEntry V)
    (hget : mapGet c.cache k = some entry) (hexp : now > entry.expiresAt)
    (hsync : c.cache.length ≤ c.stats.size) :
    (c.has now k).1 = false ∧
    mapGet (c.has now k).2.cache k = none ∧
    mapGet (c.has now k).2.accessOrder k = none ∧
    (c.has now k).2.stats = c.stats ∧
    (c.has now k).2.cache.length < ((c.has now k).2.getStats).size := by
  have hhas : c.has now k = (false,
      { c with
          cache := mapDelete c.cache k
          accessOrder := mapDelete c.accessOrder k }) := by
    simp [MemoryCache.has, hget, hexp]
  rw [hhas]
  refine ⟨rfl, by simp, by simp, rfl, ?_⟩
  show (mapDelete c.cache k).length < c.stats.size
  have hlt : (mapDelete c.cache k).length < c.cache.length :=
    mapDelete_length_lt (by simp [mapHas, hget])
  omega

theorem c10_has_expired_stale_size_witness :
    ((((mcInit Nat cfgDefault).set 0 "k" 1 (some 5)).has 10 "k").1 = false) ∧
    ((((mcInit Nat cfgDefault).set 0 "k" 1 (some 5)).has 10
      "k").2.stats.size = 1) ∧
    ((((mcInit Nat cfgDefault).set 0 "k" 1 (some 5)).has 10
      "k").2.cache.length <
      ((((mcInit Nat cfgDefault).set 0 "k" 1 (some 5)).has 10
        "k").2.getStats).size) :=
  ⟨(c10_has_expired_stale_size Nat ((mcInit Nat cfgDefault).set 0 "k" 1
      (some 5)) 10 "k" ⟨1, 5⟩ (by decide) (by decide) (by decide)).1,
   by decide,
   (c10_has_expired_stale_size Nat ((mcInit Nat cfgDefault).set 0 "k" 1
      (some 5)) 10 "k" ⟨1, 5⟩ (by decide) (by decide) (by decide)).2.2.2.2⟩

/-- Whether an `Except`-valued call returned normally. -/
def isOkE {α : Type _} (r : Except String α) : Bool :=
  match r with
  | .ok _ => true
  | .error _ => false

/-- C3 counterexample: `getStats` is an unguarded passthrough, so with an
engine whose methods throw, the exception propagates out of the
coordinator. -/
theorem c3_counterexample :
    (CacheManager.getStats true (throwEngine Nat) ()).1 =
      Except.error "engine failure" := rfl

/-- C3 (amended): the entity-level coordinator methods (`getGuild`,
`setGuild`, `invalidateGuild`, `getUser`, `setUser`, `invalidateUser`,
`getLeaderboard`, `setLeaderboard`, `invalidateLeaderboards`) never let an
engine exception escape — reads that hit an exception return absent and
writes/invalidations complete as no-ops — while the unguarded passthroughs
`getStats`, `clear` and `close` do propagate engine exceptions. -/
theorem c3_exception_containment (σ C U E M L V : Type)
    (engG : Engine σ (GuildData C U E)) (engU : Engine σ (UserRecord M))
    (engL : Engine σ (List L)) (engV : Engine σ V) :
    (∀ (s : σ) (now : Int) (gid : String),
      isOkE (CacheManager.getGuild true engG s now gid).1 = true) ∧
    (∀ (s : σ) (now : Int) (gid : String) (e : String) (s1 : σ),
      engG.getE s now (getGuildKey gid) = (.error e, s1) →
      CacheManager.getGuild true engG s now gid = (.ok none, s1)) ∧
    (∀ (s : σ) (now : Int) (g : GuildData C U E) (ttl : Option Int),
      (CacheManager.setGuild true engG s now g ttl).1 = .ok ()) ∧
    (∀ (s : σ) (gid : String),
      (CacheManager.invalidateGuild true engV s gid).1 = .ok ()) ∧
    (∀ (s : σ) (now : Int) (gid uid : String),
      isOkE (CacheManager.getUser true engU s now gid uid).1 = true) ∧
    (∀ (s : σ) (now : Int) (gid uid : String) (e : String) (s1 : σ),
      engU.getE s now (getUserKey gid uid) = (.error e, s1) →
      CacheManager.getUser true engU s now gid uid = (.ok none, s1)) ∧
    (∀ (s : σ) (now : Int) (u : UserRecord M) (ttl : Option Int),
      (CacheManager.setUser true engU s now u ttl).1 = .ok ()) ∧
    (∀ (s : σ) (gid uid : String),
      (CacheManager.invalidateUser true engV s gid uid).1 = .ok ()) ∧
    (∀ (s : σ) (now : Int) (gid sb : String) (limit offset : Nat),
      isOkE (CacheManager.getLeaderboard true engL s now gid sb limit
        offset).1 = true) ∧
    (∀ (s : σ) (now : Int) (gid sb : String) (limit offset : Nat)
      (e : String) (s1 : σ),
      engL.getE s now (getLeaderboardKey gid sb limit offset) =
        (.error e, s1) →
      CacheManager.getLeaderboard true engL s now gid sb limit offset =
        (.ok none, s1)) ∧
    (∀ (s : σ) (now : Int) (gid sb : String) (limit offset : Nat)
      (data : List L) (ttl : Option Int),
      (CacheManager.setLeaderboard true engL s now gid sb limit offset data
        ttl).1 = .ok ()) ∧
    (∀ (s : σ) (gid : String),
      (CacheManager.invalidateLeaderboards true engV s gid).1 = .ok ()) ∧
    (CacheManager.getStats true (throwEngine V) ()).1 =
      .error "engine failure" ∧
    (CacheManager.clear true (throwEngine V) ()).1 =
      .error "engine failure" ∧
    (CacheManager.close true (throwEngine V) ()).1 =
      .error "engine failure" := by
  refine ⟨?_, ?_, ?_, ?_, ?_, ?_, ?_, ?_, ?_, ?_, ?_, ?_, rfl, rfl, rfl⟩
  · intro s now gid
    rcases hE : engG.getE s now (getGuildKey gid) with ⟨e | (_ | d), s1⟩ <;>
      simp [CacheManager.getGuild, hE, isOkE]
  · intro s now gid e s1 hE
    simp [CacheManager.getGuild, hE]
  · intro s now g ttl
    rcases hE : engG.setE s now (getGuildKey g.guildId) (serializeGuild g)
      ttl with ⟨r, s1⟩
    simp [CacheManager.setGuild, hE]
  · intro s gid
    rcases hE : engV.deleteE s (getGuildKey gid) with ⟨r, s1⟩
    simp [CacheManager.invalidateGuild, hE]
  · intro s now gid uid
    rcases hE : engU.getE s now (getUserKey gid uid) with ⟨e | (_ | d), s1⟩
      <;> simp [CacheManager.getUser, hE, isOkE]
  · intro s now gid uid e s1 hE
    simp [CacheManager.getUser, hE]
  · intro s now u ttl
    rcases hE : engU.setE s now (getUserKey u.guildId u.userId) u ttl
      with ⟨r, s1⟩
    simp [CacheManager.setUser, hE]
  · intro s gid uid
    rcases hE : engV.deleteE s (getUserKey gid uid) with ⟨r, s1⟩
    simp [CacheManager.invalidateUser, hE]
  · intro s now gid sb limit offset
    rcases hE : engL.getE s now (getLeaderboardKey gid sb limit offset)
      with ⟨r, s1⟩
    cases r <;> simp [CacheManager.getLeaderboard, hE, isOkE]
  · intro s now gid sb limit offset e s1 hE
    simp [CacheManager.getLeaderboard, hE]
  · intro s now gid sb limit offset data ttl
    rcases hE : engL.setE s now (getLeaderboardKey gid sb limit offset) data
      (some (lbTtl ttl)) with ⟨r, s1⟩
    simp [CacheManager.setLeaderboard, hE]
  · intro s gid
    simp [CacheManager.invalidateLeaderboards]

theorem c3_exception_containment_witness :
    CacheManager.getGuild true (throwEngine (GuildData Unit Unit Unit)) () 0
      "g" = (.ok none, ()) ∧
    CacheManager.getUser true (throwEngine (UserRecord Unit)) () 0 "g" "u" =
      (.ok none, ()) ∧
    CacheManager.getLeaderboard true (throwEngine (List Unit)) () 0 "g" "xp"
      10 0 = (.ok none, ()) :=
  ⟨(c3_exception_containment Unit Unit Unit Unit Unit Unit Unit
      (throwEngine (GuildData Unit Unit Unit))
      (throwEngine (UserRecord Unit)) (throwEngine (List Unit))
      (throwEngine Unit)).2.1 () 0 "g" "engine failure" () rfl,
   (c3_exception_containment Unit Unit Unit Unit Unit Unit Unit
      (throwEngine (GuildData Unit Unit Unit))
      (throwEngine (UserRecord Unit)) (throwEngine (List Unit))
      (throwEngine Unit)).2.2.2.2.2.1 () 0 "g" "u" "engine failure" () rfl,
   (c3_exception_containment Unit Unit Unit Unit Unit Unit Unit
      (throwEngine (GuildData Unit Unit Unit))
      (throwEngine (UserRecord Unit)) (throwEngine (List Unit))
      (throwEngine Unit)).2.2.2.2.2.2.2.2.2.1 () 0 "g" "xp" 10 0
      "engine failure" () rfl⟩

/-- C8: a `setGuild` followed by a `getGuild` of the same guild against the
in-memory engine, before expiry and with no intervening writes, returns a
snapshot with the same user key set and per-user values, the same
`lastUpdated` instant, and all remaining fields equal. -/
theorem c8_guild_roundtrip (C U E : Type)
    (mc : MemoryCache (GuildData C U E)) (now1 now2 : Int)
    (g : GuildData C U E) (ttl : Option Int)
    (hnodup : (g.users.map Prod.fst).Nodup)
    (hfresh : ¬ now2 > now1 + effTtl mc.config ttl) :
    ∃ g2 : GuildData C U E,
      (CacheManager.getGuild true (mcEngine (GuildData C U E))
        (CacheManager.setGuild true (mcEngine (GuildData C U E)) mc now1 g
          ttl).2 now2 g.guildId).1 = .ok (some g2) ∧
      g2.users.map Prod.fst = g.users.map Prod.fst ∧
      (∀ uid, mapGet g2.users uid = mapGet g.users uid) ∧
      g2.lastUpdated = g.lastUpdated ∧
      g2.guildId = g.guildId ∧ g2.config = g.config ∧
      g2.extraData = g.extraData := by
  have hser : serializeGuild g = g := by
    unfold serializeGuild
    rw [rebuildEntries_eq_self hnodup]
  have hs1 : (CacheManager.setGuild true (mcEngine (GuildData C U E)) mc now1
      g ttl).2 = mc.set now1 (getGuildKey g.guildId) (serializeGuild g) ttl :=
    rfl
  have hmap : mapGet (mc.set now1 (getGuildKey g.guildId) (serializeGuild g)
      ttl).cache (getGuildKey g.guildId) =
      some ⟨serializeGuild g, now1 + effTtl mc.config ttl⟩ :=
    mapGet_set_self mc now1 (getGuildKey g.guildId) (serializeGuild g) ttl
  have hexp : ¬ now2 > ((⟨serializeGuild g, now1 + effTtl mc.config ttl⟩ :
      CacheEntry (GuildData C U E))).expiresAt := hfresh
  have hget := get_hit now2 hmap hexp
  have hE : (mcEngine (GuildData C U E)).getE
      (mc.set now1 (getGuildKey g.guildId) (serializeGuild g) ttl) now2
      (getGuildKey g.guildId) =
      (.ok (some (serializeGuild g)),
        ((mc.set now1 (getGuildKey g.guildId) (serializeGuild g) ttl).get
          now2 (getGuildKey g.guildId)).2) := by
    simp [mcEngine, hget]
  refine ⟨g, ?_, rfl, fun uid => rfl, rfl, rfl, rfl, rfl⟩
  rw [hs1]
  simp only [CacheManager.getGuild, Bool.true_eq_false, if_neg, hE]
  rw [hser]
  simp [dateClone, rebuildEntries_eq_self hnodup]

/-- A concrete guild snapshot with two users. -/
def gExample : GuildData Unit Unit Unit :=
  { guildId := "g1", config := (), users := [("u1", ()), ("u2", ())],
    lastUpdated := 100, extraData := () }

theorem c8_guild_roundtrip_witness :
    (gExample.users.map Prod.fst).Nodup ∧
    ∃ g2 : GuildData Unit Unit Unit,
      (CacheManager.getGuild true (mcEngine (GuildData Unit Unit Unit))
        (CacheManager.setGuild true (mcEngine (GuildData Unit Unit Unit))
          (mcInit (GuildData Unit Unit Unit) cfgDefault) 0 gExample none).2
        5 gExample.guildId).1 = .ok (some g2) ∧
      g2.users.map Prod.fst = gExample.users.map Prod.fst ∧
      (∀ uid, mapGet g2.users uid = mapGet gExample.users uid) ∧
      g2.lastUpdated = gExample.lastUpdated ∧
      g2.guildId = gExample.guildId ∧ g2.config = gExample.config ∧
      g2.extraData = gExample.extraData :=
  ⟨by decide,
   c8_guild_roundtrip Unit Unit Unit
     (mcInit (GuildData Unit Unit Unit) cfgDefault) 0 5 gExample none
     (by decide) (by decide)⟩

lemma mapSet_head {β : Type _} (k : String) (v0 v : β)
    (l : List (String × β)) (h : k ∉ l.map Prod.fst) :
    mapSet ((k, v0) :: l) k v = (k, v) :: l := by
  have hhas : mapHas ((k, v0) :: l) k = true := by
    rw [mapHas_cons]; simp
  rw [mapSet_of_has_true _ hhas, List.map_cons]
  congr 1
  · simp
  · exact replace_not_mem h

/-- C1 counterexample: with `maxSize = 1`, inserting the two distinct fresh
keys `""` and `"a"` must, per the claim, evict the first-inserted key; but
`if (oldestKey)` treats the empty-string key as falsy, so nothing is evicted:
both keys stay present and the store exceeds its capacity. -/
theorem c1_counterexample :
    mapHas ((mcInit Nat ⟨300000, 1, true⟩).set 0 "" 7 none |>.set 1 "a" 8
      none).cache "" = true ∧
    ((mcInit Nat ⟨300000, 1, true⟩).set 0 "" 7 none |>.set 1 "a" 8
      none).cache.length = 2 := by decide

/-- C1 (amended to non-empty keys): for a store with `maxSize = N`,
(i) inserting `N+1` distinct fresh non-empty-keyed entries with no
intervening reads evicts exactly the first-inserted key; (ii) if the first
key is read by a hitting `get` before the `(N+1)`th `set` (and `N ≥ 2`, so a
second key exists), the second-inserted key is evicted instead; moreover
(iii) overwriting an existing key never evicts, (iv) a fresh insert below
capacity evicts nothing, and (v) at capacity a fresh insert removes exactly
the present key whose access-order counter is globally smallest, provided
that key is not the empty string. -/
theorem c1_lru_eviction_policy (V : Type) :
    (∀ (cfg : CacheConfig) (t0 : Int) (k0 : String) (v0 : V)
       (rest : List (Int × String × V)) (tL : Int) (kL : String) (vL : V),
       (k0 :: (opKeys rest ++ [kL])).Nodup →
       k0 ≠ "" →
       cfg.maxSize = rest.length + 1 →
       ((setMany (mcInit V cfg) ((t0, k0, v0) :: rest)).set tL kL vL
         none).cache.map Prod.fst = opKeys rest ++ [kL]) ∧
    (∀ (cfg : CacheConfig) (t0 : Int) (k0 : String) (v0 : V) (t1 : Int)
       (k1 : String) (v1 : V) (rest : List (Int × String × V))
       (tg tL : Int) (kL : String) (vL : V),
       (k0 :: k1 :: (opKeys rest ++ [kL])).Nodup →
       k1 ≠ "" →
       cfg.maxSize = rest.length + 2 →
       ¬ tg > t0 + cfg.ttl →
       ((setMany (mcInit V cfg) ((t0, k0, v0) :: (t1, k1, v1) :: rest)).get
         tg k0).1 = some v0 ∧
       ((((setMany (mcInit V cfg) ((t0, k0, v0) :: (t1, k1, v1) ::
         rest)).get tg k0).2).set tL kL vL none).cache.map Prod.fst =
         k0 :: (opKeys rest ++ [kL])) ∧
    (∀ (c : MemoryCache V) (now : Int) (k : String) (v : V)
       (ttl : Option Int),
       mapHas c.cache k = true →
       (c.set now k v ttl).cache.map Prod.fst = c.cache.map Prod.fst) ∧
    (∀ (c : MemoryCache V) (now : Int) (k : String) (v : V)
       (ttl : Option Int),
       mapHas c.cache k = false →
       c.cache.length < c.config.maxSize →
       (c.set now k v ttl).cache =
         c.cache ++ [(k, ⟨v, now + effTtl c.config ttl⟩)]) ∧
    (∀ (c : MemoryCache V) (now : Int) (k : String) (v : V)
       (ttl : Option Int) (k0 : String) (a0 : Nat),
       c.accessOrder.map Prod.fst = c.cache.map Prod.fst →
       mapHas c.cache k = false →
       c.config.maxSize ≤ c.cache.length →
       lruScan none c.accessOrder = some (k0, a0) →
       k0 ≠ "" →
       ((k0, a0) ∈ c.accessOrder ∧ (∀ q ∈ c.accessOrder, a0 ≤ q.2) ∧
        mapGet (c.set now k v ttl).cache k0 = none ∧
        (∀ k2, k2 ≠ k0 → mapHas c.cache k2 = true →
          mapHas (c.set now k v ttl).cache k2 = true))) := by
  refine ⟨?_, ?_, ?_, ?_, ?_⟩
  · -- (i) first-inserted key evicted
    intro cfg t0 k0 v0 rest tL kL vL hN hk0 hmax
    rw [List.nodup_cons] at hN
    obtain ⟨hk0nin, hN2⟩ := hN
    rw [List.nodup_append] at hN2
    obtain ⟨hrestN, _, hdisj⟩ := hN2
    have hk0rest : k0 ∉ opKeys rest :=
      fun h => hk0nin (List.mem_append_left _ h)
    have hkLk0 : kL ≠ k0 :=
      fun h => hk0nin (List.mem_append_right _ (by simp [h]))
    have hkLrest : kL ∉ opKeys rest := fun h => hdisj h (by simp)
    have hsp := setMany_fresh ((t0, k0, v0) :: rest) (mcInit V cfg)
      (by
        show (k0 :: opKeys rest).Nodup
        rw [List.nodup_cons]
        exact ⟨hk0rest, hrestN⟩)
      (fun k _ => rfl) (fun k _ => rfl)
      (by
        show (mcInit V cfg).cache.length + ((t0, k0, v0) :: rest).length ≤
          (mcInit V cfg).config.maxSize
        simp [mcInit, hmax])
    have hcache : (setMany (mcInit V cfg) ((t0, k0, v0) :: rest)).cache =
        entriesOf cfg ((t0, k0, v0) :: rest) := by
      simpa [mcInit] using hsp.1
    have hao : (setMany (mcInit V cfg) ((t0, k0, v0) :: rest)).accessOrder =
        aoOf 0 (k0 :: opKeys rest) := by
      simpa [mcInit] using hsp.2.1
    have hcfg : (setMany (mcInit V cfg) ((t0, k0, v0) :: rest)).config =
        cfg := by
      simpa [mcInit] using hsp.2.2.2
    have hlen : (setMany (mcInit V cfg) ((t0, k0, v0) :: rest)).cache.length
        = rest.length + 1 := by
      rw [hcache]; simp [entriesOf]
    have hhasL : mapHas (setMany (mcInit V cfg) ((t0, k0, v0) ::
        rest)).cache kL = false := by
      apply mapHas_eq_false_of_not_mem
      rw [hcache, entriesOf_keys]
      intro hmem
      rcases List.mem_cons.mp hmem with h | h
      · exact hkLk0 h
      · exact hkLrest h
    have hcond : (setMany (mcInit V cfg) ((t0, k0, v0) ::
        rest)).config.maxSize ≤
        (setMany (mcInit V cfg) ((t0, k0, v0) :: rest)).cache.length ∧
        mapHas (setMany (mcInit V cfg) ((t0, k0, v0) :: rest)).cache kL =
          false := by
      refine ⟨?_, hhasL⟩
      rw [hcfg, hlen]
      omega
    have hev := set_fields_evict tL vL none hcond
    have hscan : lruScan none (setMany (mcInit V cfg) ((t0, k0, v0) ::
        rest)).accessOrder = some (k0, 0) := by
      rw [hao]
      exact lruScan_aoOf 0 k0 (opKeys rest)
    have hevict := evictLRU_eq hscan hk0
    have hevcache : (setMany (mcInit V cfg) ((t0, k0, v0) ::
        rest)).evictLRU.cache = entriesOf cfg rest := by
      rw [hevict]
      show mapDelete (setMany (mcInit V cfg) ((t0, k0, v0) ::
        rest)).cache k0 = entriesOf cfg rest
      rw [hcache, entriesOf_cons, mapDelete_cons, if_pos rfl]
      apply mapDelete_of_has_false
      apply mapHas_eq_false_of_not_mem
      rw [entriesOf_keys]
      exact hk0rest
    rw [hev.1, hevcache]
    have hfreshL : mapHas (entriesOf cfg rest) kL = false := by
      apply mapHas_eq_false_of_not_mem
      rw [entriesOf_keys]
      exact hkLrest
    rw [mapSet_of_has_false _ hfreshL]
    simp [entriesOf_keys]
  · -- (ii) after a hitting read of the first key, the second is evicted
    intro cfg t0 k0 v0 t1 k1 v1 rest tg tL kL vL hN hk1 hmax hg
    rw [List.nodup_cons] at hN
    obtain ⟨hk0nin, hN2⟩ := hN
    rw [List.nodup_cons] at hN2
    obtain ⟨hk1nin, hN3⟩ := hN2
    rw [List.nodup_append] at hN3
    obtain ⟨hrestN, _, hdisj⟩ := hN3
    have hk0k1 : k0 ≠ k1 := fun h => hk0nin (by simp [h])
    have hk0rest : k0 ∉ opKeys rest :=
      fun h => hk0nin (List.mem_cons.mpr (Or.inr (List.mem_append_left _ h)))
    have hkLk0 : kL ≠ k0 :=
      fun h => hk0nin (List.mem_cons.mpr
        (Or.inr (List.mem_append_right _ (by simp [h]))))
    have hk1rest : k1 ∉ opKeys rest :=
      fun h => hk1nin (List.mem_append_left _ h)
    have hkLk1 : kL ≠ k1 :=
      fun h => hk1nin (List.mem_append_right _ (by simp [h]))
    have hkLrest : kL ∉ opKeys rest := fun h => hdisj h (by simp)
    have hsp := setMany_fresh ((t0, k0, v0) :: (t1, k1, v1) :: rest)
      (mcInit V cfg)
      (by
        show (k0 :: k1 :: opKeys rest).Nodup
        rw [List.nodup_cons, List.nodup_cons]
        refine ⟨?_, hk1rest, hrestN⟩
        intro hmem
        rcases List.mem_cons.mp hmem with h | h
        · exact hk0k1 h
        · exact hk0rest h)
      (fun k _ => rfl) (fun k _ => rfl)
      (by
        show (mcInit V cfg).cache.length +
          ((t0, k0, v0) :: (t1, k1, v1) :: rest).length ≤
          (mcInit V cfg).config.maxSize
        simp [mcInit, hmax])
    have hcache : (setMany (mcInit V cfg)
        ((t0, k0, v0) :: (t1, k1, v1) :: rest)).cache =
        entriesOf cfg ((t0, k0, v0) :: (t1, k1, v1) :: rest) := by
      simpa [mcInit] using hsp.1
    have hao : (setMany (mcInit V cfg)
        ((t0, k0, v0) :: (t1, k1, v1) :: rest)).accessOrder =
        aoOf 0 (k0 :: k1 :: opKeys rest) := by
      simpa [mcInit] using hsp.2.1
    have hcfg : (setMany (mcInit V cfg)
        ((t0, k0, v0) :: (t1, k1, v1) :: rest)).config = cfg := by
      simpa [mcInit] using hsp.2.2.2
    have hctr2 : (setMany (mcInit V cfg)
        ((t0, k0, v0) :: (t1, k1, v1) :: rest)).accessCounter =
        rest.length + 2 := by
      rw [hsp.2.2.1]
      simp [mcInit]
    have hmget : mapGet (setMany (mcInit V cfg)
        ((t0, k0, v0) :: (t1, k1, v1) :: rest)).cache k0 =
        some ⟨v0, t0 + cfg.ttl⟩ := by
      rw [hcache, entriesOf_cons, mapGet_cons, if_pos rfl]
    have hexp : ¬ tg > ((⟨v0, t0 + cfg.ttl⟩ : CacheEntry V)).expiresAt := hg
    have hgot := get_hit tg hmget hexp
    refine ⟨by rw [hgot], ?_⟩
    have hGcache : ((setMany (mcInit V cfg)
        ((t0, k0, v0) :: (t1, k1, v1) :: rest)).get tg k0).2.cache =
        (setMany (mcInit V cfg)
          ((t0, k0, v0) :: (t1, k1, v1) :: rest)).cache := by
      rw [hgot]
    have hGao : ((setMany (mcInit V cfg)
        ((t0, k0, v0) :: (t1, k1, v1) :: rest)).get tg k0).2.accessOrder =
        (k0, (setMany (mcInit V cfg)
          ((t0, k0, v0) :: (t1, k1, v1) :: rest)).accessCounter) ::
          aoOf 1 (k1 :: opKeys rest) := by
      rw [hgot]
      show mapSet (setMany (mcInit V cfg)
        ((t0, k0, v0) :: (t1, k1, v1) :: rest)).accessOrder k0
        (setMany (mcInit V cfg)
          ((t0, k0, v0) :: (t1, k1, v1) :: rest)).accessCounter = _
      rw [hao]
      exact mapSet_head k0 0 _ (aoOf 1 (k1 :: opKeys rest)) (by
        rw [aoOf_keys]
        intro hmem
        rcases List.mem_cons.mp hmem with h | h
        · exact hk0k1 h
        · exact hk0rest h)
    have hGcfg : ((setMany (mcInit V cfg)
        ((t0, k0, v0) :: (t1, k1, v1) :: rest)).get tg k0).2.config = cfg := by
      rw [hgot]
      show (setMany (mcInit V cfg)
        ((t0, k0, v0) :: (t1, k1, v1) :: rest)).config = cfg
      exact hcfg
    have hlenG : ((setMany (mcInit V cfg)
        ((t0, k0, v0) :: (t1, k1, v1) :: rest)).get tg
        k0).2.cache.length = rest.length + 2 := by
      rw [hGcache, hcache]
      simp [entriesOf]
    have hhasLG : mapHas ((setMany (mcInit V cfg)
        ((t0, k0, v0) :: (t1, k1, v1) :: rest)).get tg k0).2.cache kL =
        false := by
      rw [hGcache]
      apply mapHas_eq_false_of_not_mem
      rw [hcache, entriesOf_keys]
      intro hmem
      rcases List.mem_cons.mp hmem with h | hmem2
      · exact hkLk0 h
      · rcases List.mem_cons.mp hmem2 with h | h
        · exact hkLk1 h
        · exact hkLrest h
    have hcondG : ((setMany (mcInit V cfg)
        ((t0, k0, v0) :: (t1, k1, v1) :: rest)).get tg
        k0).2.config.maxSize ≤ ((setMany (mcInit V cfg)
        ((t0, k0, v0) :: (t1, k1, v1) :: rest)).get tg
        k0).2.cache.length ∧
        mapHas ((setMany (mcInit V cfg)
          ((t0, k0, v0) :: (t1, k1, v1) :: rest)).get tg k0).2.cache kL =
          false := by
      refine ⟨?_, hhasLG⟩
      rw [hGcfg, hlenG]
      omega
    have hevG := set_fields_evict tL vL none hcondG
    have hscanG : lruScan none ((setMany (mcInit V cfg)
        ((t0, k0, v0) :: (t1, k1, v1) :: rest)).get tg
        k0).2.accessOrder = some (k1, 1) := by
      rw [hGao]
      rw [lruScan_cons]
      show lruScan (some (k0, (setMany (mcInit V cfg)
        ((t0, k0, v0) :: (t1, k1, v1) :: rest)).accessCounter))
        (aoOf 1 (k1 :: opKeys rest)) = some (k1, 1)
      rw [show aoOf 1 (k1 :: opKeys rest) =
        (k1, 1) :: aoOf 2 (opKeys rest) from rfl]
      rw [lruScan_cons]
      have h12 : (1 : Nat) < (setMany (mcInit V cfg)
          ((t0, k0, v0) :: (t1, k1, v1) :: rest)).accessCounter := by
        rw [hctr2]; omega
      show lruScan (if (1 : Nat) < (setMany (mcInit V cfg)
        ((t0, k0, v0) :: (t1, k1, v1) :: rest)).accessCounter then
          some (k1, 1)
        else some (k0, (setMany (mcInit V cfg)
          ((t0, k0, v0) :: (t1, k1, v1) :: rest)).accessCounter))
        (aoOf 2 (opKeys rest)) = some (k1, 1)
      rw [if_pos h12]
      exact lruScan_keep (fun q hq => by
        have := aoOf_counter_ge (opKeys rest) 2 q hq
        omega)
    have hevictG := evictLRU_eq hscanG hk1
    have hevcacheG : ((setMany (mcInit V cfg)
        ((t0, k0, v0) :: (t1, k1, v1) :: rest)).get tg
        k0).2.evictLRU.cache =
        (k0, (⟨v0, t0 + cfg.ttl⟩ : CacheEntry V)) :: entriesOf cfg rest := by
      rw [hevictG]
      show mapDelete ((setMany (mcInit V cfg)
        ((t0, k0, v0) :: (t1, k1, v1) :: rest)).get tg k0).2.cache k1 = _
      rw [hGcache, hcache, entriesOf_cons, entriesOf_cons, mapDelete_cons,
        if_neg (by exact hk0k1), mapDelete_cons, if_pos rfl]
      congr 1
      apply mapDelete_of_has_false
      apply mapHas_eq_false_of_not_mem
      rw [entriesOf_keys]
      exact hk1rest
    rw [hevG.1, hevcacheG]
    have hfreshL : mapHas ((k0, (⟨v0, t0 + cfg.ttl⟩ : CacheEntry V)) ::
        entriesOf cfg rest) kL = false := by
      apply mapHas_eq_false_of_not_mem
      rw [List.map_cons, entriesOf_keys]
      intro hmem
      rcases List.mem_cons.mp hmem with h | h
      · exact hkLk0 h
      · exact hkLrest h
    rw [mapSet_of_has_false _ hfreshL]
    simp [entriesOf_keys]
  · -- (iii) overwrite never evicts
    intro c now k v ttl hhas
    have hcond : ¬ (c.config.maxSize ≤ c.cache.length ∧
        mapHas c.cache k = false) := by
      rintro ⟨_, h2⟩
      rw [hhas] at h2
      exact absurd h2 (by simp)
    rw [(set_fields_no_evict now v ttl hcond).1]
    exact keys_mapSet_of_has_true _ hhas
  · -- (iv) fresh insert below capacity appends
    intro c now k v ttl hhas hlen
    have hcond : ¬ (c.config.maxSize ≤ c.cache.length ∧
        mapHas c.cache k = false) := by
      rintro ⟨h1, _⟩
      omega
    rw [(set_fields_no_evict now v ttl hcond).1, mapSet_of_has_false _ hhas]
  · -- (v) at capacity: the globally least-recently-used key is removed
    intro c now k v ttl k0 a0 hsync hfresh hcap hscan hk0
    have hmem0 : (k0, a0) ∈ c.accessOrder := by
      rcases lruScan_mem c.accessOrder none (k0, a0) hscan with h | h
      · exact absurd h (by simp)
      · exact h
    have hmin := (lruScan_min c.accessOrder none (k0, a0) hscan).1
    have hk0cache : k0 ∈ c.cache.map Prod.fst := by
      rw [← hsync]
      exact List.mem_map.mpr ⟨(k0, a0), hmem0, rfl⟩
    have hk0k : k0 ≠ k := by
      intro heq
      rw [heq] at hk0cache
      have := mapHas_iff_mem_keys.mpr hk0cache
      rw [hfresh] at this
      exact absurd this (by simp)
    have hev := set_fields_evict now v ttl ⟨hcap, hfresh⟩
    have hevict := evictLRU_eq hscan hk0
    refine ⟨hmem0, fun q hq => hmin q hq, ?_, ?_⟩
    · rw [hev.1, hevict]
      show mapGet (mapSet (mapDelete c.cache k0) k
        ⟨v, now + effTtl c.config ttl⟩) k0 = none
      rw [mapGet_mapSet_ne _ _ hk0k]
      exact mapGet_mapDelete_self _ _
    · intro k2 hk2 hk2has
      rw [hev.1, hevict]
      show mapHas (mapSet (mapDelete c.cache k0) k
        ⟨v, now + effTtl c.config ttl⟩) k2 = true
      by_cases hk2k : k2 = k
      · subst hk2k
        simp [mapHas, mapGet_mapSet_self]
      · show (mapGet (mapSet (mapDelete c.cache k0) k
          ⟨v, now + effTtl c.config ttl⟩) k2).isSome = true
        rw [mapGet_mapSet_ne _ _ hk2k, mapGet_mapDelete_ne _ hk2]
        exact hk2has

theorem c1_lru_eviction_policy_witness :
    ((setMany (mcInit Nat ⟨300000, 2, true⟩) [(0, "a", 1), (1, "b", 2)]).set
      2 "c" 3 none).cache.map Prod.fst = ["b", "c"] ∧
    (((setMany (mcInit Nat ⟨300000, 2, true⟩) [(0, "a", 1), (1, "b",
      2)]).get 3 "a").1 = some 1 ∧
     ((((setMany (mcInit Nat ⟨300000, 2, true⟩) [(0, "a", 1), (1, "b",
       2)]).get 3 "a").2).set 4 "c" 3 none).cache.map Prod.fst =
       ["a", "c"]) ∧
    (((mcInit Nat cfgDefault).set 0 "a" 1 none).set 1 "a" 9 none).cache.map
      Prod.fst =
      ((mcInit Nat cfgDefault).set 0 "a" 1 none).cache.map Prod.fst ∧
    (((mcInit Nat cfgDefault).set 0 "a" 1 none).set 1 "b" 2 none).cache =
      ((mcInit Nat cfgDefault).set 0 "a" 1 none).cache ++
        [("b", ⟨2, 1 + effTtl ((mcInit Nat cfgDefault).set 0 "a" 1
          none).config none⟩)] ∧
    (("a", 0) ∈ (setMany (mcInit Nat ⟨300000, 2, true⟩)
        [(0, "a", 1), (1, "b", 2)]).accessOrder ∧
     (∀ q ∈ (setMany (mcInit Nat ⟨300000, 2, true⟩)
        [(0, "a", 1), (1, "b", 2)]).accessOrder, 0 ≤ q.2) ∧
     mapGet ((setMany (mcInit Nat ⟨300000, 2, true⟩)
        [(0, "a", 1), (1, "b", 2)]).set 5 "c" 9 none).cache "a" = none ∧
     (∀ k2, k2 ≠ "a" →
       mapHas (setMany (mcInit Nat ⟨300000, 2, true⟩)
         [(0, "a", 1), (1, "b", 2)]).cache k2 = true →
       mapHas ((setMany (mcInit Nat ⟨300000, 2, true⟩)
         [(0, "a", 1), (1, "b", 2)]).set 5 "c" 9 none).cache k2 = true)) :=
  ⟨(c1_lru_eviction_policy Nat).1 ⟨300000, 2, true⟩ 0 "a" 1 [(1, "b", 2)] 2
     "c" 3 (by decide) (by decide) (by decide),
   (c1_lru_eviction_policy Nat).2.1 ⟨300000, 2, true⟩ 0 "a" 1 1 "b" 2 [] 3 4
     "c" 3 (by decide) (by decide) (by decide) (by decide),
   (c1_lru_eviction_policy Nat).2.2.1 ((mcInit Nat cfgDefault).set 0 "a" 1
     none) 1 "a" 9 none (by decide),
   (c1_lru_eviction_policy Nat).2.2.2.1 ((mcInit Nat cfgDefault).set 0 "a" 1
     none) 1 "b" 2 none (by decide) (by decide),
   (c1_lru_eviction_policy Nat).2.2.2.2 (setMany (mcInit Nat
     ⟨300000, 2, true⟩) [(0, "a", 1), (1, "b", 2)]) 5 "c" 9 none "a" 0
     (by decide) (by decide) (by decide) (by decide) (by decide)⟩
